import Mathlib

set_option maxHeartbeats 1000000
set_option maxRecDepth 10000

/-!
A shallow embedding of the ada query compiler (src/ada/query_parser.py) and
result rendering (src/ada/result.py), together with theorems settling the
specification claims about clause compilation, entity resolution, recipe
lookup, solver-status rendering, the message length cap, and flow-graph
edge allocation.

Machine strings are modelled as Lean `String` (Python `len` counts
characters, as does `String.length`); numeric clause values are `Int`
(Python ints); flow amounts are `ℚ` (exact rationals standing for the
real-number semantics of the arithmetic in `generate_graph_viz`).
-/

/-! ### Python string primitives

`str.lower`, `str.strip` and `re.split` on a single-character class, as used
by `QueryParser._check_var`.  These are written over `List Char` so that all
definitions reduce in the kernel. -/

/-- Python `str.lower` restricted to ASCII letters (the only case-carrying
characters that occur in queries and catalog names). -/
def pyLowerChar (c : Char) : Char :=
  if 'A' ≤ c ∧ c ≤ 'Z' then Char.ofNat (c.toNat + 32) else c

/-- Python `str.lower`. -/
def pyLower (s : String) : String :=
  String.mk (s.data.map pyLowerChar)

/-- Python `str.strip` (no arguments): remove leading and trailing whitespace. -/
def pyStrip (s : String) : String :=
  String.mk (((s.data.dropWhile Char.isWhitespace).reverse.dropWhile Char.isWhitespace).reverse)

/-- Helper for `reSplit`: split a character list at every separator
character.  Like Python `re.split` on a single-character class, consecutive
separators yield empty fragments. -/
def splitChars (isSep : Char → Bool) : List Char → List (List Char)
  | [] => [[]]
  | c :: cs =>
    match splitChars isSep cs with
    | [] => [[]]
    | t :: ts => if isSep c then [] :: t :: ts else (c :: t) :: ts

/-- Python `re.split(r'[...]', s)` for a single-character class given by
`isSep`. -/
def reSplit (isSep : Char → Bool) (s : String) : List String :=
  (splitChars isSep s.data).map (fun l => String.mk l)

/-- Python `filter(None, fragments)`: drop empty strings. -/
def filterEmpty (l : List String) : List String :=
  l.filter (fun s => s != "")

/-- Separator class `[\s\-\_:]` used for the query expression in
`_check_var`. -/
def exprSep (c : Char) : Bool :=
  c.isWhitespace || c == '-' || c == '_' || c == ':'

/-- Separator class `[\s:\-]` used for human-readable names in
`_check_var`. -/
def nameSep (c : Char) : Bool :=
  c.isWhitespace || c == ':' || c == '-'

/-- Separator class `[:\-]` used for var identifiers in `_check_var`. -/
def varSep (c : Char) : Bool :=
  c == ':' || c == '-'

/-- Python `str.startswith`. -/
def strStartsWith (pre s : String) : Bool :=
  List.isPrefixOf pre.data s.data

/-- Everything after the first `:`; Python `var.split(':', 1)[1]`.  Catalog
vars are always type-prefixed (`item:...`, `recipe:...`), so the colon is
present in every reachable call; on a colon-free string Python would raise
`IndexError`, here we return the empty string. -/
def afterColonList : List Char → List Char
  | [] => []
  | c :: cs => if c == ':' then cs else afterColonList cs

/-- String version of `afterColonList`. -/
def afterColon (s : String) : String :=
  String.mk (afterColonList s.data)

/-! ### Regular-expression fallback

`_check_var` falls back to `re.fullmatch(expr, name)` after the token-based
rules.  Entity expressions produced by the grammar consist of letters, `:`,
`.`, `*`, `-` and spaces (`Word(alphas + ":.*-")` joined by spaces), so the
only regex metacharacters a pattern can contain are `.` (any character
except newline) and the postfix repetition `*`; every other character is a
literal.  Patterns in which `*` has nothing to repeat (leading `*`, or
`**`) raise `re.error` in Python; the model lets them match nothing. -/

/-- One regex atom: `.` or a literal character. -/
inductive RAtom
  | dot
  | lit (c : Char)
deriving DecidableEq

/-- Does the atom match one character?  Python `.` does not match a
newline. -/
def atomMatch : RAtom → Char → Bool
  | RAtom.dot, c => c != '\n'
  | RAtom.lit l, c => l == c

/-- Parse a pattern into a list of (atom, starred) pairs; `none` for
patterns Python rejects (`*` with nothing to repeat, multiple repeat). -/
def parseRegexAux : List Char → Option (List (RAtom × Bool))
  | [] => some []
  | [c] =>
    if c == '*' then none
    else some [(if c == '.' then RAtom.dot else RAtom.lit c, false)]
  | c :: c2 :: rest =>
    if c == '*' then none
    else
      let a := if c == '.' then RAtom.dot else RAtom.lit c
      if c2 == '*' then
        match rest with
        | '*' :: _ => none
        | _ => (parseRegexAux rest).map (fun l => (a, true) :: l)
      else
        (parseRegexAux (c2 :: rest)).map (fun l => (a, false) :: l)

/-- One NFA step: the residual patterns after consuming `c` against the
front of `ps`. -/
def stepOne : List (RAtom × Bool) → Char → List (List (RAtom × Bool))
  | [], _ => []
  | (a, false) :: ps, c => if atomMatch a c then [ps] else []
  | (a, true) :: ps, c =>
    (if atomMatch a c then [(a, true) :: ps] else []) ++ stepOne ps c

/-- All residual patterns after consuming the whole string. -/
def regexStates (ps : List (RAtom × Bool)) (s : List Char) : List (List (RAtom × Bool)) :=
  s.foldl (fun states c => states.flatMap (fun p => stepOne p c)) [ps]

/-- A pattern is nullable when every remaining atom is starred. -/
def regexAccept (ps : List (RAtom × Bool)) (s : List Char) : Bool :=
  (regexStates ps s).any (fun p => p.all (fun ab => ab.2))

/-- Python `re.fullmatch(pattern, s)` truthiness, for the pattern subset
reachable from the grammar (see above). -/
def re_fullmatch (pattern s : String) : Bool :=
  match parseRegexAux pattern.data with
  | none => false
  | some ps => regexAccept ps s.data

/-! ### Catalog model and entity resolution

The Game Database is an external collaborator (spec §6); a catalog entity
is duck-typed over `var()`, `human_readable_name()`, `slug()`,
`is_resource()`, `is_alternate()`.  Pluralization (`inflect.engine().plural`)
is an external library and is abstracted as a function parameter `pl`. -/

/-- A catalog entity as seen by the query parser. -/
structure CatalogVar where
  human_readable_name : String
  varName : String
  slug : String
  isResource : Bool
  isAlternate : Bool
deriving DecidableEq

/-- The read-only Game Database: entity lists per category plus the
`recipes_for_product` index (recipes producing a given item var). -/
structure DB where
  items : List CatalogVar
  recipes : List CatalogVar
  power_recipes : List CatalogVar
  crafters : List CatalogVar
  generators : List CatalogVar
  recipes_for_product : String → List CatalogVar

/-- The body of `QueryParser._check_var` after the normalization
`expr = expr.strip().lower()` (line 174): the ordered fallback chain
matching the normalized expression against one catalog entity.  `pl`
stands for `inflect.engine().plural`. -/
def check_var_norm (pl : String → String) (expr : String) (v : CatalogVar) : Bool :=
  let expr_parts := filterEmpty (reSplit exprSep expr)
  let singular := pyLower v.human_readable_name
  let singular_parts := filterEmpty (reSplit nameSep singular)
  if expr_parts == singular_parts then true else
  let plural := pl singular
  let plural_parts := filterEmpty (reSplit nameSep plural)
  if expr_parts == plural_parts then true else
  if strStartsWith "recipe: alternate: " singular &&
      (expr_parts == singular_parts.drop 2 ||
       expr_parts == singular_parts.take 1 ++ singular_parts.drop 2 ||
       expr_parts == plural_parts.drop 2 ||
       expr_parts == plural_parts.take 1 ++ plural_parts.drop 2) then true else
  let var_parts := filterEmpty (reSplit varSep v.varName)
  if expr_parts == var_parts then true else
  let typeless_var := afterColon v.varName
  let typeless_var_parts := reSplit varSep typeless_var
  if expr_parts == typeless_var_parts then true else
  re_fullmatch expr singular || re_fullmatch expr plural ||
    re_fullmatch expr v.varName || re_fullmatch expr typeless_var

/-- `QueryParser._check_var` (src/ada/query_parser.py lines 166-206):
normalize the user expression (strip + lower, line 174), then run the
fallback chain. -/
def check_var (pl : String → String) (expr0 : String) (v : CatalogVar) : Bool :=
  check_var_norm pl (pyLower (pyStrip expr0)) v

/-- `QueryParser._get_matches` (src/ada/query_parser.py lines 208-224):
collect the allowed categories and keep the entities `check_var` accepts.
Python gathers candidates in a `set` (arbitrary iteration order); the model
concatenates the category lists in the order the source inspects them. -/
def get_matches (pl : String → String) (db : DB) (expr : String)
    (allowed_types : List String) : List CatalogVar :=
  let allowed_vars :=
    (if allowed_types.contains "resource" then db.items.filter (fun i => i.isResource) else []) ++
    (if allowed_types.contains "item" then db.items.filter (fun i => !i.isResource) else []) ++
    (if allowed_types.contains "recipe" then db.recipes else []) ++
    (if allowed_types.contains "power-recipe" then db.power_recipes else []) ++
    (if allowed_types.contains "crafter" then db.crafters else []) ++
    (if allowed_types.contains "generator" then db.generators else [])
  allowed_vars.filter (fun v => check_var pl expr v)

example : re_fullmatch "iron_rod" "iron_rod" = true := by decide
example : re_fullmatch "iron rod" "iron_rod" = false := by decide
example : re_fullmatch "iron.*" "iron rod" = true := by decide
example : filterEmpty (reSplit exprSep "iron_rod") = ["iron", "rod"] := by decide
example : pyLower (pyStrip " Iron Rod ") = "iron rod" := by decide

/-! ### The optimization query object

`OptimizationQuery` itself lives in `ada/query.py`, which is not part of
the sources; only its fields and their initial values are needed here. -/

/-- Modelled from the spec: the `OptimizationQuery` data object (§3) from
the missing `ada/query.py` — objective direction and coefficient map, the
three constraint maps, the strictness flags (default false) and
`has_power_output`.  Maps are insertion-ordered association lists, matching
Python dict semantics.  The constructor starts with empty maps (forced by
the handlers' `len(query.objective_coefficients) > 0` objective check) and
cleared flags. -/
structure OptimizationQuery where
  maximize_objective : Bool
  objective_coefficients : List (String × Int)
  eq_constraints : List (String × Int)
  ge_constraints : List (String × Int)
  le_constraints : List (String × Int)
  strict_outputs : Bool
  strict_inputs : Bool
  strict_recipes : Bool
  strict_power_recipes : Bool
  strict_crafters : Bool
  strict_generators : Bool
  has_power_output : Bool
deriving DecidableEq

/-- Modelled from the spec: the freshly constructed `OptimizationQuery`
(see `OptimizationQuery`). -/
def initQuery : OptimizationQuery :=
  { maximize_objective := false
    objective_coefficients := []
    eq_constraints := []
    ge_constraints := []
    le_constraints := []
    strict_outputs := false
    strict_inputs := false
    strict_recipes := false
    strict_power_recipes := false
    strict_crafters := false
    strict_generators := false
    has_power_output := false }

/-- Python `dict` single-key write: overwrite in place if the key exists,
else append. -/
def updateEntry (m : List (String × Int)) (k : String) (v : Int) : List (String × Int) :=
  if m.any (fun p => p.1 == k) then
    m.map (fun p => if p.1 == k then (k, v) else p)
  else m ++ [(k, v)]

/-- Python `dict.update({var: v for var in ks})` with one shared value. -/
def updateAll (m : List (String × Int)) (ks : List String) (v : Int) : List (String × Int) :=
  ks.foldl (fun m k => updateEntry m k v) m

/-- Python `{var: v for var in ks}`: a fresh dict comprehension. -/
def mkDict (ks : List String) (v : Int) : List (String × Int) :=
  updateAll [] ks v

/-- Python `m[k]` as an optional read. -/
def lookupDict (m : List (String × Int)) (k : String) : Option Int :=
  (m.find? (fun p => p.1 == k)).map (fun p => p.2)

/-! ### Clause parse results

One parsed clause of each section, as delivered by the grammar
(src/ada/query_parser.py lines 98-127): an optional `only`, a value token
(`?`, an integer, or `_`/`any`/omitted), and either a literal keyword or a
free-text entity expression. -/

/-- The value token of an output/input clause. -/
inductive ClauseValue
  | question
  | num (n : Nat)
  | anyVal
deriving DecidableEq

/-- A literal keyword or an entity expression (grammar: the two
alternatives of `output_var` / `input_var` / `include_var`). -/
inductive ClauseTarget
  | literal (name : String)
  | entity (e : String)
deriving DecidableEq

/-- One output clause: `strict + value + output_var`. -/
structure OutputClause where
  strict : Bool
  value : ClauseValue
  target : ClauseTarget
deriving DecidableEq

/-- One input clause: `strict + value + input_var`. -/
structure InputClause where
  strict : Bool
  value : ClauseValue
  target : ClauseTarget
deriving DecidableEq

/-- One include clause (the grammar's `Optional(ONLY)` is never read by the
handler, so only the target matters). -/
structure IncludeClause where
  target : ClauseTarget
deriving DecidableEq

/-- An exclude clause target: the `alternate-recipes` literal, the
`byproducts` keyword, or an entity expression. -/
inductive ExcludeTarget
  | literal (name : String)
  | byproducts
  | entity (e : String)
deriving DecidableEq

/-- One exclude clause. -/
structure ExcludeClause where
  target : ExcludeTarget
deriving DecidableEq

/-! ### Clause handlers (`QueryParser._parse_outputs` .. `_parse_excludes`) -/

/-- Resolution step of `_parse_outputs` (lines 230-240): a literal passes
through, an entity expression resolves against items only, and an empty
match set is a hard error. -/
def output_vars (pl : String → String) (db : DB) (c : OutputClause) :
    Except String (List String) :=
  match c.target with
  | ClauseTarget.literal n => Except.ok [n]
  | ClauseTarget.entity e =>
    let ms := (get_matches pl db e ["item"]).map (fun v => v.varName)
    if ms.length = 0 then
      Except.error ("Could not parse item expression '" ++ e ++ "'.")
    else Except.ok ms

/-- Did this output clause carry the `power` literal (parse-result key
`"power"`)? -/
def output_is_power (c : OutputClause) : Bool :=
  match c.target with
  | ClauseTarget.literal n => n == "power"
  | ClauseTarget.entity _ => false

/-- Value handling of `_parse_outputs` (lines 241-252): `?` claims the
objective (error if one is already set), `_` adds `≥ 0` constraints, a
number adds equality constraints. -/
def apply_output_value (c : OutputClause) (vars : List String)
    (q : OptimizationQuery) : Except String OptimizationQuery :=
  match c.value with
  | ClauseValue.question =>
    if q.objective_coefficients.length > 0 then
      Except.error ("Only one objective may be specified.")
    else
      Except.ok { q with maximize_objective := true,
                          objective_coefficients := mkDict vars 1 }
  | ClauseValue.anyVal =>
    Except.ok { q with ge_constraints := updateAll q.ge_constraints vars 0 }
  | ClauseValue.num n =>
    Except.ok { q with eq_constraints := updateAll q.eq_constraints vars (Int.ofNat n) }

/-- Trailing flag handling of `_parse_outputs` (lines 253-257). -/
def output_flags (c : OutputClause) (q : OptimizationQuery) : OptimizationQuery :=
  let q1 := if c.strict then { q with strict_outputs := true } else q
  if output_is_power c then { q1 with has_power_output := true } else q1

/-- One iteration of the `_parse_outputs` loop. -/
def process_output (pl : String → String) (db : DB) (c : OutputClause)
    (q : OptimizationQuery) : Except String OptimizationQuery :=
  match output_vars pl db c with
  | Except.error e => Except.error e
  | Except.ok vars =>
    match apply_output_value c vars q with
    | Except.error e => Except.error e
    | Except.ok q2 => Except.ok (output_flags c q2)

/-- The `for output in outputs` loop of `_parse_outputs`. -/
def parse_outputs_loop (pl : String → String) (db : DB) :
    List OutputClause → OptimizationQuery → Except String OptimizationQuery
  | [], q => Except.ok q
  | c :: cs, q =>
    match process_output pl db c q with
    | Except.error e => Except.error e
    | Except.ok q2 => parse_outputs_loop pl db cs q2

/-- `QueryParser._parse_outputs` (lines 226-257). -/
def parse_outputs (pl : String → String) (db : DB) (outputs : List OutputClause)
    (q : OptimizationQuery) : Except String OptimizationQuery :=
  if outputs.isEmpty then
    Except.error ("No outputs specified in optimization query.")
  else parse_outputs_loop pl db outputs q

/-- Resolution step of `_parse_inputs` (lines 264-275): literals pass
through, entity expressions resolve against resources and items. -/
def input_vars (pl : String → String) (db : DB) (c : InputClause) :
    Except String (List String) :=
  match c.target with
  | ClauseTarget.literal n => Except.ok [n]
  | ClauseTarget.entity e =>
    let ms := (get_matches pl db e ["resource", "item"]).map (fun v => v.varName)
    if ms.length = 0 then
      Except.error ("Could not parse resource or item expression '" ++ e ++ "'.")
    else Except.ok ms

/-- Value handling of `_parse_inputs` (lines 276-288): `?` claims the
objective with coefficient −1 and minimization, `_` adds `≤ 0`
constraints, and a number `n` adds `≥ −n` constraints. -/
def apply_input_value (c : InputClause) (vars : List String)
    (q : OptimizationQuery) : Except String OptimizationQuery :=
  match c.value with
  | ClauseValue.question =>
    if q.objective_coefficients.length > 0 then
      Except.error ("Only one objective may be specified.")
    else
      Except.ok { q with maximize_objective := false,
                          objective_coefficients := mkDict vars (-1) }
  | ClauseValue.anyVal =>
    Except.ok { q with le_constraints := updateAll q.le_constraints vars 0 }
  | ClauseValue.num n =>
    Except.ok { q with ge_constraints := updateAll q.ge_constraints vars (-(Int.ofNat n)) }

/-- One iteration of the `_parse_inputs` loop (including the `only`
flag, line 289-290). -/
def process_input (pl : String → String) (db : DB) (c : InputClause)
    (q : OptimizationQuery) : Except String OptimizationQuery :=
  match input_vars pl db c with
  | Except.error e => Except.error e
  | Except.ok vars =>
    match apply_input_value c vars q with
    | Except.error e => Except.error e
    | Except.ok q2 =>
      Except.ok (if c.strict then { q2 with strict_inputs := true } else q2)

/-- The `for input_ in inputs` loop of `_parse_inputs`. -/
def parse_inputs_loop (pl : String → String) (db : DB) :
    List InputClause → OptimizationQuery → Except String OptimizationQuery
  | [], q => Except.ok q
  | c :: cs, q =>
    match process_input pl db c q with
    | Except.error e => Except.error e
    | Except.ok q2 => parse_inputs_loop pl db cs q2

/-- `QueryParser._parse_inputs` (lines 259-290).  With no input clause the
objective is unconditionally reset to minimizing the synthetic
`unweighted-resources` aggregate. -/
def parse_inputs (pl : String → String) (db : DB) (inputs : List InputClause)
    (q : OptimizationQuery) : Except String OptimizationQuery :=
  if inputs.isEmpty then
    Except.ok { q with maximize_objective := false,
                        objective_coefficients := [("unweighted-resources", -1)] }
  else parse_inputs_loop pl db inputs q

/-- Resolution step of `_parse_includes` (lines 296-306). -/
def include_vars (pl : String → String) (db : DB) (c : IncludeClause) :
    Except String (List String) :=
  match c.target with
  | ClauseTarget.literal n => Except.ok [n]
  | ClauseTarget.entity e =>
    let ms := (get_matches pl db e ["recipe", "power-recipe", "crafter", "generator"]).map
      (fun v => v.varName)
    if ms.length = 0 then
      Except.error ("Could not parse recipe, power recipe, crafter, or generator expression '"
        ++ e ++ "'.")
    else Except.ok ms

/-- Strictness flags set per included var (lines 308-316). -/
def include_strict_flags (q : OptimizationQuery) (vars : List String) :
    OptimizationQuery :=
  vars.foldl (fun q v =>
    let q1 := if strStartsWith "recipe:" v then { q with strict_recipes := true } else q
    let q2 := if strStartsWith "power-recipe:" v then { q1 with strict_power_recipes := true } else q1
    let q3 := if strStartsWith "crafter:" v then { q2 with strict_crafters := true } else q2
    if strStartsWith "generator:" v then { q3 with strict_generators := true } else q3) q

/-- One iteration of the `_parse_includes` loop (lines 295-316): every
matched var gets a `≥ 0` constraint, then strictness flags are set. -/
def process_include (pl : String → String) (db : DB) (c : IncludeClause)
    (q : OptimizationQuery) : Except String OptimizationQuery :=
  match include_vars pl db c with
  | Except.error e => Except.error e
  | Except.ok vars =>
    Except.ok (include_strict_flags
      { q with ge_constraints := updateAll q.ge_constraints vars 0 } vars)

/-- The `for include in includes` loop of `_parse_includes`. -/
def parse_includes_loop (pl : String → String) (db : DB) :
    List IncludeClause → OptimizationQuery → Except String OptimizationQuery
  | [], q => Except.ok q
  | c :: cs, q =>
    match process_include pl db c q with
    | Except.error e => Except.error e
    | Except.ok q2 => parse_includes_loop pl db cs q2

/-- `QueryParser._parse_includes` (lines 292-316). -/
def parse_includes (pl : String → String) (db : DB) (includes : List IncludeClause)
    (q : OptimizationQuery) : Except String OptimizationQuery :=
  if includes.isEmpty then Except.ok q
  else parse_includes_loop pl db includes q

/-- Resolution step of `_parse_excludes` (lines 322-332); the `byproducts`
keyword contributes no vars. -/
def exclude_vars (pl : String → String) (db : DB) (c : ExcludeClause) :
    Except String (List String) :=
  match c.target with
  | ExcludeTarget.literal n => Except.ok [n]
  | ExcludeTarget.byproducts => Except.ok []
  | ExcludeTarget.entity e =>
    let ms := (get_matches pl db e ["recipe", "power-recipe", "crafter", "generator"]).map
      (fun v => v.varName)
    if ms.length = 0 then
      Except.error ("Could not parse recipe, power recipe, crafter, or generator expression '"
        ++ e ++ "'.")
    else Except.ok ms

/-- Is this exclude clause the `byproducts` keyword? -/
def exclude_is_byproducts (c : ExcludeClause) : Bool :=
  match c.target with
  | ExcludeTarget.byproducts => true
  | _ => false

/-- One iteration of the `_parse_excludes` loop (lines 321-335): the
`byproducts` keyword forces `strict_outputs`, and every matched var is set
to equality 0. -/
def process_exclude (pl : String → String) (db : DB) (c : ExcludeClause)
    (q : OptimizationQuery) : Except String OptimizationQuery :=
  match exclude_vars pl db c with
  | Except.error e => Except.error e
  | Except.ok vars =>
    let q1 := if exclude_is_byproducts c then { q with strict_outputs := true } else q
    Except.ok { q1 with eq_constraints := updateAll q1.eq_constraints vars 0 }

/-- The `for exclude in excludes` loop of `_parse_excludes`. -/
def parse_excludes_loop (pl : String → String) (db : DB) :
    List ExcludeClause → OptimizationQuery → Except String OptimizationQuery
  | [], q => Except.ok q
  | c :: cs, q =>
    match process_exclude pl db c q with
    | Except.error e => Except.error e
    | Except.ok q2 => parse_excludes_loop pl db cs q2

/-- `QueryParser._parse_excludes` (lines 318-335). -/
def parse_excludes (pl : String → String) (db : DB) (excludes : List ExcludeClause)
    (q : OptimizationQuery) : Except String OptimizationQuery :=
  if excludes.isEmpty then Except.ok q
  else parse_excludes_loop pl db excludes q

/-- `QueryParser._parse_optimization_query` (lines 337-343): construct a
fresh query object and run the four clause handlers in order
outputs → inputs → includes → excludes. -/
def parse_optimization_query (pl : String → String) (db : DB)
    (outputs : List OutputClause) (inputs : List InputClause)
    (includes : List IncludeClause) (excludes : List ExcludeClause) :
    Except String OptimizationQuery :=
  match parse_outputs pl db outputs initQuery with
  | Except.error e => Except.error e
  | Except.ok q1 =>
    match parse_inputs pl db inputs q1 with
    | Except.error e => Except.error e
    | Except.ok q2 =>
      match parse_includes pl db includes q2 with
      | Except.error e => Except.error e
      | Except.ok q3 =>
        match parse_excludes pl db excludes q3 with
        | Except.error e => Except.error e
        | Except.ok q4 => Except.ok q4

/-! ### Info and recipe-compare queries -/

/-- Modelled from the spec: the `InfoQuery` data object (§3) from the
missing `ada/query.py` — the ordered sequence of matched catalog entities.
Only the `vars` field is relevant here. -/
structure InfoQuery where
  vars : List CatalogVar
deriving DecidableEq

/-- `QueryParser._parse_recipe_for_query` (lines 345-366).  The source
builds `all_vars` and `non_alternate_vars` in one interleaved loop over
`matches × recipes_for_product`; that equals the flattened list and its
filter, in the same order. -/
def parse_recipe_for_query (pl : String → String) (db : DB) (expr : String) :
    Except String InfoQuery :=
  let item_matches := get_matches pl db expr ["item"]
  if item_matches.length = 0 then
    Except.error ("Could not parse item expression '" ++ expr ++ "'.")
  else
    let all_vars := item_matches.flatMap (fun m => db.recipes_for_product m.varName)
    let non_alternate_vars := all_vars.filter (fun r => !r.isAlternate)
    if non_alternate_vars.length > 0 then Except.ok ⟨non_alternate_vars⟩
    else Except.ok ⟨all_vars⟩

/-- `QueryParser._parse_single_recipe_query` (lines 405-414): the handler
for the bare `recipe <X>` shape.  The grammar's `single_recipe_query`
(lines 135-137) matches `RECIPE + entity_expr` and `parse` dispatches the
`single-recipe` key at line 489, before `recipe-for`; this handler
resolves the expression against recipe *names* only — no
`recipes_for_product` lookup and no alternate filtering. -/
def parse_single_recipe_query (pl : String → String) (db : DB) (expr : String) :
    Except String InfoQuery :=
  let ms := get_matches pl db expr ["recipe"]
  if ms.length = 0 then
    Except.error ("Could not parse recipe expression '" ++ expr ++ "'.")
  else Except.ok ⟨ms⟩

/-- Modelled from the spec: the `RecipeCompareQuery` data object (§3) from
the missing `ada/query.py` — product item, base recipe, remaining related
recipes and the `exclude_alternates` flag.  All success paths of the
handler assign a base recipe, so it is not optional here. -/
structure RecipeCompareQuery where
  product_item : CatalogVar
  base_recipe : CatalogVar
  related_recipes : List CatalogVar
  exclude_alternates : Bool
deriving DecidableEq

/-- The `for recipe in list(related_recipes)` search of
`_parse_recipe_compare_query` (lines 440-444): find the first recipe whose
slug equals the product slug and remove it (`list.remove` drops the first
occurrence, which is the found one). -/
def findBaseRecipe (slug : String) : List CatalogVar → Option (CatalogVar × List CatalogVar)
  | [] => none
  | r :: rest =>
    if r.slug == slug then some (r, rest)
    else (findBaseRecipe slug rest).map (fun p => (p.1, r :: p.2))

/-- The base-recipe selection block of `_parse_recipe_compare_query`
(lines 431-448), applied to `related_recipes = recipes_for_product(...)`:
zero producers is an error, a sole producer becomes the base with no
related recipes, and otherwise the first recipe whose slug equals the
product slug is removed from the related list and becomes the base
(error when none matches). -/
def pick_base (product_item : CatalogVar) (excludeAlternates : Bool) :
    List CatalogVar → Except String RecipeCompareQuery
  | [] =>
    Except.error ("Could not find any recipe that produces "
      ++ product_item.human_readable_name)
  | [base] => Except.ok ⟨product_item, base, [], excludeAlternates⟩
  | r1 :: r2 :: rest =>
    match findBaseRecipe product_item.slug (r1 :: r2 :: rest) with
    | some p => Except.ok ⟨product_item, p.1, p.2, excludeAlternates⟩
    | none =>
      Except.error ("Could not find base recipe for "
        ++ product_item.human_readable_name)

/-- `QueryParser._parse_recipe_compare_query` (lines 416-454).
`excludeAlternates` reflects the optional `without alternate recipes`
suffix of the grammar. -/
def parse_recipe_compare_query (pl : String → String) (db : DB) (expr : String)
    (excludeAlternates : Bool) : Except String RecipeCompareQuery :=
  match get_matches pl db expr ["item"] with
  | [] =>
    Except.error ("Could not parse compare recipes for expression '" ++ expr ++ "'.")
  | [product_item] =>
    pick_base product_item excludeAlternates
      (db.recipes_for_product product_item.varName)
  | m1 :: m2 :: ms =>
    Except.error ("Multiple items were matched:\n   "
      ++ String.intercalate "\n   " ((m1 :: m2 :: ms).map (fun m => m.human_readable_name))
      ++ "\nPlease repeat the command with a more specific item name.")

/-! ### Optimization result rendering (src/ada/result.py)

`ResultMessage` (`ada/result_message.py`) and discord's `Embed` are
external collaborators; only the title/description/content fields that the
source writes are modelled.  `__string_solution` and `__solution_message`
depend on the solved LP and the graphviz renderer, so they enter the model
as opaque parameters (`solution_text`, `solution_msg`): the claims under
proof only concern the non-optimal statuses and the length cap. -/

/-- The pulp solver status constants used by `OptimizationResult`. -/
inductive LpStatus
  | optimal
  | notSolved
  | infeasible
  | unbounded
  | undefined
deriving DecidableEq

/-- Modelled from the spec: the rendered chat message (`ResultMessage` in
the missing `ada/result_message.py`) — an optional embed title and
description plus the plain content string. -/
structure ResultMessage where
  embedTitle : Option String
  embedDescription : Option String
  content : String
deriving DecidableEq

/-- `OptimizationResult.__str__` (lines 276-285): canned explanations for
the non-optimal statuses, otherwise the solution report
(`solution_text`). -/
def opt_result_str (status : LpStatus) (solution_text : String) : String :=
  if status = LpStatus.notSolved then "No solution has been found."
  else if status = LpStatus.undefined then "No solution has been found."
  else if status = LpStatus.infeasible then
    "Solution is infeasible, try removing a constraint or allowing a byproduct (e.g. rubber >= 0)"
  else if status = LpStatus.unbounded then
    "Solution is unbounded, try adding a constraint or replacing '?' with a concrete value (e.g. 1000)"
  else solution_text

/-- `OptimizationResult.message` (lines 323-329): the optimal status
delegates to `__solution_message`; every other status renders an embed
whose title is `str(self)` with the breadcrumbs as content.  No length cap
is applied on either path. -/
def optimization_message (status : LpStatus) (solution_msg : ResultMessage)
    (solution_text breadcrumbs : String) : ResultMessage :=
  if status = LpStatus.optimal then solution_msg
  else { embedTitle := some (opt_result_str status solution_text)
         embedDescription := none
         content := breadcrumbs }

/-- The combined content built by `RecipeCompareResult.message`
(lines 574-585): the breadcrumbs plus the four output lines (two headers
and two fenced `tabulate` tables, the latter abstracted as strings). -/
def recipe_compare_content (breadcrumbs product_name overall_table input_table : String) :
    String :=
  let out := ["All recipes that produce " ++ product_name,
              "```\n" ++ overall_table ++ "```",
              "Raw Inputs for 1/m " ++ product_name,
              "```\n" ++ input_table ++ "```"]
  breadcrumbs ++ "\n" ++ String.intercalate "\n" out

/-- `RecipeCompareResult.message` (lines 569-588): content longer than
2000 characters is replaced by the placeholder. -/
def recipe_compare_message (breadcrumbs product_name overall_table input_table : String) :
    ResultMessage :=
  let content := recipe_compare_content breadcrumbs product_name overall_table input_table
  { embedTitle := none
    embedDescription := none
    content := if content.length > 2000 then "Output was too long" else content }

/-! ### Flow graph construction (`OptimizationResult.generate_graph_viz`,
lines 367-448)

Per item, `sources` and `sinks` map node names to amounts; every source is
connected to every sink of the same item with amount
`source_amount × sink_amount / total_sink_demand`.  Amounts are modelled
as exact rationals. -/

/-- The inner sink loop for one source (lines 439-446): the source's
amount is distributed over the sinks proportionally to their demand. -/
def edges_from_source (source : String) (source_amount : ℚ)
    (item_sinks : List (String × ℚ)) : List (String × String × ℚ) :=
  let total_sink_amount := (item_sinks.map (fun p => p.2)).sum
  let multiplier := source_amount / total_sink_amount
  item_sinks.map (fun p => (source, p.1, multiplier * p.2))

/-- The source loop for one item (lines 439-446). -/
def item_edges (item_sources item_sinks : List (String × ℚ)) :
    List (String × String × ℚ) :=
  item_sources.flatMap (fun sp => edges_from_source sp.1 sp.2 item_sinks)

/-- The outer loop over `sources.items()` (lines 434-446): items absent
from `sinks` are skipped with a warning. -/
def generate_flow_edges (sources sinks : List (String × List (String × ℚ))) :
    List (String × String × ℚ) :=
  sources.flatMap (fun ip =>
    match sinks.find? (fun sp => sp.1 == ip.1) with
    | none => []
    | some sp => item_edges ip.2 sp.2)

/-! ### Supporting lemmas about the dictionary model -/

theorem updateEntry_ne_nil (m : List (String × Int)) (k : String) (v : Int) :
    updateEntry m k v ≠ [] := by
  unfold updateEntry
  split
  · rename_i hany
    cases m with
    | nil => simp at hany
    | cons p ps => simp
  · simp

theorem updateAll_ne_nil_of_ne (ks : List String) (m : List (String × Int)) (v : Int)
    (h : m ≠ []) : updateAll m ks v ≠ [] := by
  induction ks generalizing m with
  | nil => exact h
  | cons k ks ih => exact ih (updateEntry m k v) (updateEntry_ne_nil m k v)

theorem mkDict_ne_nil (ks : List String) (v : Int) (h : ks ≠ []) :
    mkDict ks v ≠ [] := by
  cases ks with
  | nil => exact absurd rfl h
  | cons k ks =>
    exact updateAll_ne_nil_of_ne ks (updateEntry [] k v) v (updateEntry_ne_nil [] k v)

theorem lookupDict_map_overwrite (k : String) (v : Int) (m : List (String × Int))
    (hany : m.any (fun p => p.1 == k) = true) :
    lookupDict (m.map (fun p => if p.1 == k then (k, v) else p)) k = some v := by
  induction m with
  | nil => simp at hany
  | cons p ps ih =>
    by_cases hk : p.1 = k
    · simp [lookupDict, hk]
    · have hk' : (p.1 == k) = false := beq_eq_false_iff_ne.mpr hk
      simp only [List.any_cons, hk', Bool.false_or] at hany
      simpa [lookupDict, List.find?, hk'] using ih hany

theorem lookupDict_updateEntry (m : List (String × Int)) (k : String) (v : Int) :
    lookupDict (updateEntry m k v) k = some v := by
  unfold updateEntry
  split
  · exact lookupDict_map_overwrite k v m (by assumption)
  · rename_i hany
    induction m with
    | nil => simp [lookupDict]
    | cons p ps ih =>
      simp only [List.any_cons, Bool.or_eq_true, not_or] at hany
      have hk : (p.1 == k) = false := by
        cases hpk : p.1 == k
        · rfl
        · exact absurd hpk (by simpa using hany.1)
      simp only [List.cons_append, lookupDict, List.find?, hk]
      exact ih (by simpa using hany.2)

/-! ### Resolution lemmas -/

theorem output_vars_ok_ne_nil {pl : String → String} {db : DB} {c : OutputClause}
    {vs : List String} (h : output_vars pl db c = Except.ok vs) : vs ≠ [] := by
  obtain ⟨st, val, tgt⟩ := c
  cases tgt with
  | literal n =>
    simp only [output_vars] at h
    injection h with h'
    subst h'
    simp
  | entity e =>
    simp only [output_vars] at h
    split at h
    · exact Except.noConfusion h
    · rename_i hlen
      injection h with h'
      subst h'
      exact fun hnil => hlen (by simp [hnil])

theorem input_vars_ok_ne_nil {pl : String → String} {db : DB} {c : InputClause}
    {vs : List String} (h : input_vars pl db c = Except.ok vs) : vs ≠ [] := by
  obtain ⟨st, val, tgt⟩ := c
  cases tgt with
  | literal n =>
    simp only [input_vars] at h
    injection h with h'
    subst h'
    simp
  | entity e =>
    simp only [input_vars] at h
    split at h
    · exact Except.noConfusion h
    · rename_i hlen
      injection h with h'
      subst h'
      exact fun hnil => hlen (by simp [hnil])

/-! ### Objective preservation through the clause handlers -/

/-- The objective fields of `q'` agree with those of `q`. -/
def objPreserved (q q' : OptimizationQuery) : Prop :=
  q'.objective_coefficients = q.objective_coefficients ∧
    q'.maximize_objective = q.maximize_objective

theorem objPreserved_refl (q : OptimizationQuery) : objPreserved q q := ⟨rfl, rfl⟩

theorem objPreserved_trans {q1 q2 q3 : OptimizationQuery}
    (h1 : objPreserved q1 q2) (h2 : objPreserved q2 q3) : objPreserved q1 q3 :=
  ⟨h2.1.trans h1.1, h2.2.trans h1.2⟩

theorem output_flags_obj (c : OutputClause) (q : OptimizationQuery) :
    objPreserved q (output_flags c q) := by
  unfold output_flags objPreserved
  constructor <;> (split <;> split <;> rfl)

theorem apply_output_value_nonq {c : OutputClause} {vars : List String}
    {q q' : OptimizationQuery} (hv : c.value ≠ ClauseValue.question)
    (h : apply_output_value c vars q = Except.ok q') : objPreserved q q' := by
  obtain ⟨st, val, tgt⟩ := c
  cases val with
  | question => exact absurd rfl hv
  | anyVal =>
    simp only [apply_output_value] at h
    injection h with h'
    subst h'
    exact ⟨rfl, rfl⟩
  | num n =>
    simp only [apply_output_value] at h
    injection h with h'
    subst h'
    exact ⟨rfl, rfl⟩

theorem apply_output_value_nonq_ok (c : OutputClause) (vars : List String)
    (q : OptimizationQuery) (hv : c.value ≠ ClauseValue.question) :
    ∃ q', apply_output_value c vars q = Except.ok q' := by
  obtain ⟨st, val, tgt⟩ := c
  cases val with
  | question => exact absurd rfl hv
  | anyVal => exact ⟨_, rfl⟩
  | num n => exact ⟨_, rfl⟩

theorem apply_output_value_q_ok {c : OutputClause} {vars : List String}
    {q q' : OptimizationQuery} (hv : c.value = ClauseValue.question)
    (h : apply_output_value c vars q = Except.ok q') :
    q.objective_coefficients = [] ∧
      q'.objective_coefficients = mkDict vars 1 ∧ q'.maximize_objective = true := by
  obtain ⟨st, val, tgt⟩ := c
  cases val with
  | question =>
    simp only [apply_output_value] at h
    by_cases hlen : q.objective_coefficients.length > 0
    · rw [if_pos hlen] at h
      exact Except.noConfusion h
    · rw [if_neg hlen] at h
      injection h with h'
      subst h'
      exact ⟨List.length_eq_zero.mp (by omega), rfl, rfl⟩
  | anyVal => exact ClauseValue.noConfusion hv
  | num n => exact ClauseValue.noConfusion hv

theorem apply_output_value_q_err {c : OutputClause} {vars : List String}
    {q : OptimizationQuery} (hv : c.value = ClauseValue.question)
    (hne : q.objective_coefficients ≠ []) :
    apply_output_value c vars q = Except.error ("Only one objective may be specified.") := by
  obtain ⟨st, val, tgt⟩ := c
  cases val with
  | question =>
    simp only [apply_output_value]
    rw [if_pos (List.length_pos.mpr hne)]
  | anyVal => exact ClauseValue.noConfusion hv
  | num n => exact ClauseValue.noConfusion hv

theorem apply_output_value_q_ok_of_empty (c : OutputClause) (vars : List String)
    (q : OptimizationQuery) (hv : c.value = ClauseValue.question)
    (hemp : q.objective_coefficients = []) :
    apply_output_value c vars q =
      Except.ok { q with maximize_objective := true,
                          objective_coefficients := mkDict vars 1 } := by
  obtain ⟨st, val, tgt⟩ := c
  cases val with
  | question =>
    simp only [apply_output_value]
    rw [if_neg (by simp [hemp])]
  | anyVal => exact ClauseValue.noConfusion hv
  | num n => exact ClauseValue.noConfusion hv

theorem process_output_nonq {pl : String → String} {db : DB} {c : OutputClause}
    {q q' : OptimizationQuery} (hv : c.value ≠ ClauseValue.question)
    (h : process_output pl db c q = Except.ok q') : objPreserved q q' := by
  cases hov : output_vars pl db c with
  | error e =>
    simp only [process_output, hov] at h
    exact Except.noConfusion h
  | ok vars =>
    cases hav : apply_output_value c vars q with
    | error e =>
      simp only [process_output, hov, hav] at h
      exact Except.noConfusion h
    | ok q2 =>
      simp only [process_output, hov, hav, Except.ok.injEq] at h
      subst h
      exact objPreserved_trans (apply_output_value_nonq hv hav) (output_flags_obj c q2)

theorem process_output_nonq_ok {pl : String → String} {db : DB} {c : OutputClause}
    {vars : List String} (q : OptimizationQuery)
    (hov : output_vars pl db c = Except.ok vars) (hv : c.value ≠ ClauseValue.question) :
    ∃ q', process_output pl db c q = Except.ok q' ∧ objPreserved q q' := by
  obtain ⟨q2, hav⟩ := apply_output_value_nonq_ok c vars q hv
  refine ⟨output_flags c q2, ?_, ?_⟩
  · simp only [process_output, hov, hav]
  · exact objPreserved_trans (apply_output_value_nonq hv hav) (output_flags_obj c q2)

theorem process_output_q_ok {pl : String → String} {db : DB} {c : OutputClause}
    {q q' : OptimizationQuery} (hv : c.value = ClauseValue.question)
    (h : process_output pl db c q = Except.ok q') :
    q.objective_coefficients = [] ∧
      ∃ vars, output_vars pl db c = Except.ok vars ∧
        q'.objective_coefficients = mkDict vars 1 ∧ q'.maximize_objective = true := by
  cases hov : output_vars pl db c with
  | error e =>
    simp only [process_output, hov] at h
    exact Except.noConfusion h
  | ok vars =>
    cases hav : apply_output_value c vars q with
    | error e =>
      simp only [process_output, hov, hav] at h
      exact Except.noConfusion h
    | ok q2 =>
      simp only [process_output, hov, hav, Except.ok.injEq] at h
      subst h
      obtain ⟨hemp, hco, hmax⟩ := apply_output_value_q_ok hv hav
      have hfl := output_flags_obj c q2
      exact ⟨hemp, vars, rfl, hfl.1.trans hco, hfl.2.trans hmax⟩

theorem process_output_q_err {pl : String → String} {db : DB} {c : OutputClause}
    {vars : List String} (q : OptimizationQuery)
    (hov : output_vars pl db c = Except.ok vars) (hv : c.value = ClauseValue.question)
    (hne : q.objective_coefficients ≠ []) :
    process_output pl db c q = Except.error ("Only one objective may be specified.") := by
  simp only [process_output, hov, apply_output_value_q_err hv hne]

theorem process_output_q_ok_of_empty {pl : String → String} {db : DB} {c : OutputClause}
    {vars : List String} (q : OptimizationQuery)
    (hov : output_vars pl db c = Except.ok vars) (hv : c.value = ClauseValue.question)
    (hemp : q.objective_coefficients = []) :
    ∃ q', process_output pl db c q = Except.ok q' ∧
      q'.objective_coefficients = mkDict vars 1 ∧ q'.maximize_objective = true := by
  have hpe : process_output pl db c q =
      Except.ok (output_flags c { q with maximize_objective := true,
                                          objective_coefficients := mkDict vars 1 }) := by
    simp only [process_output, hov, apply_output_value_q_ok_of_empty c vars q hv hemp]
  exact ⟨_, hpe, (output_flags_obj c _).1, (output_flags_obj c _).2⟩

/-! ### The outputs loop -/

theorem parse_outputs_loop_nonq {pl : String → String} {db : DB}
    {cs : List OutputClause} {q q' : OptimizationQuery}
    (hq : ∀ c ∈ cs, c.value ≠ ClauseValue.question)
    (h : parse_outputs_loop pl db cs q = Except.ok q') : objPreserved q q' := by
  induction cs generalizing q with
  | nil =>
    unfold parse_outputs_loop at h
    injection h with h'
    subst h'
    exact objPreserved_refl q
  | cons c cs ih =>
    unfold parse_outputs_loop at h
    cases hp : process_output pl db c q with
    | error e => rw [hp] at h; exact Except.noConfusion h
    | ok q2 =>
      rw [hp] at h
      exact objPreserved_trans
        (process_output_nonq (hq c (List.mem_cons_self c cs)) hp)
        (ih (fun c' hc' => hq c' (List.mem_cons_of_mem c hc')) h)

theorem parse_outputs_loop_nonq_ok {pl : String → String} {db : DB}
    {cs : List OutputClause} (q : OptimizationQuery)
    (hres : ∀ c ∈ cs, ∃ vs, output_vars pl db c = Except.ok vs)
    (hq : ∀ c ∈ cs, c.value ≠ ClauseValue.question) :
    ∃ q', parse_outputs_loop pl db cs q = Except.ok q' ∧ objPreserved q q' := by
  induction cs generalizing q with
  | nil => exact ⟨q, rfl, objPreserved_refl q⟩
  | cons c cs ih =>
    obtain ⟨vs, hov⟩ := hres c (List.mem_cons_self c cs)
    obtain ⟨q2, hp, hpr⟩ := process_output_nonq_ok q hov (hq c (List.mem_cons_self c cs))
    obtain ⟨q3, hl, hpr2⟩ := ih q2 (fun c' hc' => hres c' (List.mem_cons_of_mem c hc'))
      (fun c' hc' => hq c' (List.mem_cons_of_mem c hc'))
    refine ⟨q3, ?_, objPreserved_trans hpr hpr2⟩
    unfold parse_outputs_loop
    rw [hp]
    exact hl

theorem parse_outputs_loop_coeffs_ne_nil {pl : String → String} {db : DB}
    {cs : List OutputClause} {q q' : OptimizationQuery}
    (h : parse_outputs_loop pl db cs q = Except.ok q')
    (hor : q.objective_coefficients ≠ [] ∨ ∃ c ∈ cs, c.value = ClauseValue.question) :
    q'.objective_coefficients ≠ [] := by
  induction cs generalizing q with
  | nil =>
    unfold parse_outputs_loop at h
    injection h with h'
    subst h'
    rcases hor with hne | ⟨c, hc, _⟩
    · exact hne
    · exact absurd hc (List.not_mem_nil c)
  | cons c cs ih =>
    unfold parse_outputs_loop at h
    cases hp : process_output pl db c q with
    | error e => rw [hp] at h; exact Except.noConfusion h
    | ok q2 =>
      rw [hp] at h
      by_cases hcq : c.value = ClauseValue.question
      · obtain ⟨_, vars, hov, hco, _⟩ := process_output_q_ok hcq hp
        exact ih h (Or.inl (hco ▸ mkDict_ne_nil vars 1 (output_vars_ok_ne_nil hov)))
      · have hpres := process_output_nonq hcq hp
        rcases hor with hne | ⟨c', hc', hq'⟩
        · exact ih h (Or.inl (hpres.1 ▸ hne))
        · rcases List.mem_cons.mp hc' with rfl | hc2
          · exact absurd hq' hcq
          · exact ih h (Or.inr ⟨c', hc2, hq'⟩)

theorem parse_outputs_loop_err_q {pl : String → String} {db : DB}
    {cs : List OutputClause} (q : OptimizationQuery)
    (hres : ∀ c ∈ cs, ∃ vs, output_vars pl db c = Except.ok vs)
    (hne : q.objective_coefficients ≠ [])
    (hex : ∃ c ∈ cs, c.value = ClauseValue.question) :
    parse_outputs_loop pl db cs q =
      Except.error ("Only one objective may be specified.") := by
  induction cs generalizing q with
  | nil =>
    obtain ⟨c, hc, _⟩ := hex
    exact absurd hc (List.not_mem_nil c)
  | cons c cs ih =>
    obtain ⟨vs, hov⟩ := hres c (List.mem_cons_self c cs)
    by_cases hcq : c.value = ClauseValue.question
    · unfold parse_outputs_loop
      rw [process_output_q_err q hov hcq hne]
    · obtain ⟨q2, hp, hpr⟩ := process_output_nonq_ok q hov hcq
      unfold parse_outputs_loop
      rw [hp]
      obtain ⟨c', hc', hq'⟩ := hex
      rcases List.mem_cons.mp hc' with rfl | hc2
      · exact absurd hq' hcq
      · exact ih q2 (fun c'' hc'' => hres c'' (List.mem_cons_of_mem c hc''))
          (hpr.1 ▸ hne) ⟨c', hc2, hq'⟩

theorem parse_outputs_loop_err_2q {pl : String → String} {db : DB}
    {p1 : List OutputClause} {c1 : OutputClause} {p2 : List OutputClause}
    (q : OptimizationQuery)
    (hres : ∀ c ∈ p1 ++ c1 :: p2, ∃ vs, output_vars pl db c = Except.ok vs)
    (hc1 : c1.value = ClauseValue.question)
    (hex : ∃ c ∈ p2, c.value = ClauseValue.question) :
    parse_outputs_loop pl db (p1 ++ c1 :: p2) q =
      Except.error ("Only one objective may be specified.") := by
  induction p1 generalizing q with
  | nil =>
    obtain ⟨vs, hov⟩ := hres c1 (List.mem_cons_self c1 p2)
    by_cases hemp : q.objective_coefficients = []
    · obtain ⟨q2, hp, hco, _⟩ := process_output_q_ok_of_empty q hov hc1 hemp
      simp only [List.nil_append]
      unfold parse_outputs_loop
      rw [hp]
      exact parse_outputs_loop_err_q q2
        (fun c hc => hres c (List.mem_cons_of_mem c1 hc))
        (hco ▸ mkDict_ne_nil vs 1 (output_vars_ok_ne_nil hov)) hex
    · simp only [List.nil_append]
      unfold parse_outputs_loop
      rw [process_output_q_err q hov hc1 hemp]
  | cons a p1' ih =>
    obtain ⟨vsa, hova⟩ := hres a (List.mem_cons_self a _)
    by_cases haq : a.value = ClauseValue.question
    · by_cases hemp : q.objective_coefficients = []
      · obtain ⟨q2, hp, hco, _⟩ := process_output_q_ok_of_empty q hova haq hemp
        simp only [List.cons_append]
        unfold parse_outputs_loop
        rw [hp]
        exact parse_outputs_loop_err_q q2
          (fun c hc => hres c (List.mem_cons_of_mem a hc))
          (hco ▸ mkDict_ne_nil vsa 1 (output_vars_ok_ne_nil hova))
          ⟨c1, by simp, hc1⟩
      · simp only [List.cons_append]
        unfold parse_outputs_loop
        rw [process_output_q_err q hova haq hemp]
    · obtain ⟨q2, hp, _⟩ := process_output_nonq_ok q hova haq
      simp only [List.cons_append]
      unfold parse_outputs_loop
      rw [hp]
      exact ih q2 (fun c hc => hres c (List.mem_cons_of_mem a hc))

/-! ### Mirrored lemmas for the inputs loop -/

theorem apply_input_value_nonq {c : InputClause} {vars : List String}
    {q q' : OptimizationQuery} (hv : c.value ≠ ClauseValue.question)
    (h : apply_input_value c vars q = Except.ok q') : objPreserved q q' := by
  obtain ⟨st, val, tgt⟩ := c
  cases val with
  | question => exact absurd rfl hv
  | anyVal =>
    simp only [apply_input_value] at h
    injection h with h'
    subst h'
    exact ⟨rfl, rfl⟩
  | num n =>
    simp only [apply_input_value] at h
    injection h with h'
    subst h'
    exact ⟨rfl, rfl⟩

theorem apply_input_value_nonq_ok (c : InputClause) (vars : List String)
    (q : OptimizationQuery) (hv : c.value ≠ ClauseValue.question) :
    ∃ q', apply_input_value c vars q = Except.ok q' := by
  obtain ⟨st, val, tgt⟩ := c
  cases val with
  | question => exact absurd rfl hv
  | anyVal => exact ⟨_, rfl⟩
  | num n => exact ⟨_, rfl⟩

theorem apply_input_value_q_ok {c : InputClause} {vars : List String}
    {q q' : OptimizationQuery} (hv : c.value = ClauseValue.question)
    (h : apply_input_value c vars q = Except.ok q') :
    q.objective_coefficients = [] ∧
      q'.objective_coefficients = mkDict vars (-1) ∧ q'.maximize_objective = false := by
  obtain ⟨st, val, tgt⟩ := c
  cases val with
  | question =>
    simp only [apply_input_value] at h
    by_cases hlen : q.objective_coefficients.length > 0
    · rw [if_pos hlen] at h
      exact Except.noConfusion h
    · rw [if_neg hlen] at h
      injection h with h'
      subst h'
      exact ⟨List.length_eq_zero.mp (by omega), rfl, rfl⟩
  | anyVal => exact ClauseValue.noConfusion hv
  | num n => exact ClauseValue.noConfusion hv

theorem apply_input_value_q_err {c : InputClause} {vars : List String}
    {q : OptimizationQuery} (hv : c.value = ClauseValue.question)
    (hne : q.objective_coefficients ≠ []) :
    apply_input_value c vars q = Except.error ("Only one objective may be specified.") := by
  obtain ⟨st, val, tgt⟩ := c
  cases val with
  | question =>
    simp only [apply_input_value]
    rw [if_pos (List.length_pos.mpr hne)]
  | anyVal => exact ClauseValue.noConfusion hv
  | num n => exact ClauseValue.noConfusion hv

theorem apply_input_value_q_ok_of_empty (c : InputClause) (vars : List String)
    (q : OptimizationQuery) (hv : c.value = ClauseValue.question)
    (hemp : q.objective_coefficients = []) :
    apply_input_value c vars q =
      Except.ok { q with maximize_objective := false,
                          objective_coefficients := mkDict vars (-1) } := by
  obtain ⟨st, val, tgt⟩ := c
  cases val with
  | question =>
    simp only [apply_input_value]
    rw [if_neg (by simp [hemp])]
  | anyVal => exact ClauseValue.noConfusion hv
  | num n => exact ClauseValue.noConfusion hv

theorem strict_inputs_flag_obj (b : Bool) (q : OptimizationQuery) :
    objPreserved q (if b then { q with strict_inputs := true } else q) := by
  cases b <;> exact ⟨rfl, rfl⟩

theorem process_input_nonq {pl : String → String} {db : DB} {c : InputClause}
    {q q' : OptimizationQuery} (hv : c.value ≠ ClauseValue.question)
    (h : process_input pl db c q = Except.ok q') : objPreserved q q' := by
  cases hov : input_vars pl db c with
  | error e =>
    simp only [process_input, hov] at h
    exact Except.noConfusion h
  | ok vars =>
    cases hav : apply_input_value c vars q with
    | error e =>
      simp only [process_input, hov, hav] at h
      exact Except.noConfusion h
    | ok q2 =>
      simp only [process_input, hov, hav, Except.ok.injEq] at h
      subst h
      exact objPreserved_trans (apply_input_value_nonq hv hav)
        (strict_inputs_flag_obj c.strict q2)

theorem process_input_nonq_ok {pl : String → String} {db : DB} {c : InputClause}
    {vars : List String} (q : OptimizationQuery)
    (hov : input_vars pl db c = Except.ok vars) (hv : c.value ≠ ClauseValue.question) :
    ∃ q', process_input pl db c q = Except.ok q' ∧ objPreserved q q' := by
  obtain ⟨q2, hav⟩ := apply_input_value_nonq_ok c vars q hv
  refine ⟨if c.strict then { q2 with strict_inputs := true } else q2, ?_, ?_⟩
  · simp only [process_input, hov, hav]
  · exact objPreserved_trans (apply_input_value_nonq hv hav)
      (strict_inputs_flag_obj c.strict q2)

theorem process_input_q_not_ok {pl : String → String} {db : DB} {c : InputClause}
    {q q' : OptimizationQuery} (hv : c.value = ClauseValue.question)
    (hne : q.objective_coefficients ≠ []) :
    process_input pl db c q ≠ Except.ok q' := by
  intro h
  cases hov : input_vars pl db c with
  | error e =>
    simp only [process_input, hov] at h
    exact Except.noConfusion h
  | ok vars =>
    simp only [process_input, hov, apply_input_value_q_err hv hne] at h
    exact Except.noConfusion h

theorem process_input_q_err {pl : String → String} {db : DB} {c : InputClause}
    {vars : List String} (q : OptimizationQuery)
    (hov : input_vars pl db c = Except.ok vars) (hv : c.value = ClauseValue.question)
    (hne : q.objective_coefficients ≠ []) :
    process_input pl db c q = Except.error ("Only one objective may be specified.") := by
  simp only [process_input, hov, apply_input_value_q_err hv hne]

theorem process_input_q_ok_of_empty {pl : String → String} {db : DB} {c : InputClause}
    {vars : List String} (q : OptimizationQuery)
    (hov : input_vars pl db c = Except.ok vars) (hv : c.value = ClauseValue.question)
    (hemp : q.objective_coefficients = []) :
    ∃ q', process_input pl db c q = Except.ok q' ∧
      q'.objective_coefficients = mkDict vars (-1) ∧ q'.maximize_objective = false := by
  have hpe : process_input pl db c q =
      Except.ok (if c.strict then
        { ({ q with maximize_objective := false,
                    objective_coefficients := mkDict vars (-1) } : OptimizationQuery) with
            strict_inputs := true }
        else { q with maximize_objective := false,
                      objective_coefficients := mkDict vars (-1) }) := by
    simp only [process_input, hov, apply_input_value_q_ok_of_empty c vars q hv hemp]
  refine ⟨_, hpe, ?_, ?_⟩
  · exact (strict_inputs_flag_obj c.strict _).1
  · exact (strict_inputs_flag_obj c.strict _).2

theorem parse_inputs_loop_pres {pl : String → String} {db : DB}
    {cs : List InputClause} {q q' : OptimizationQuery}
    (h : parse_inputs_loop pl db cs q = Except.ok q')
    (hne : q.objective_coefficients ≠ []) : objPreserved q q' := by
  induction cs generalizing q with
  | nil =>
    unfold parse_inputs_loop at h
    injection h with h'
    subst h'
    exact objPreserved_refl q
  | cons c cs ih =>
    unfold parse_inputs_loop at h
    cases hp : process_input pl db c q with
    | error e => rw [hp] at h; exact Except.noConfusion h
    | ok q2 =>
      rw [hp] at h
      by_cases hcq : c.value = ClauseValue.question
      · exact absurd hp (process_input_q_not_ok hcq hne)
      · have hpr := process_input_nonq hcq hp
        exact objPreserved_trans hpr (ih h (hpr.1 ▸ hne))

theorem parse_inputs_loop_err_q {pl : String → String} {db : DB}
    {cs : List InputClause} (q : OptimizationQuery)
    (hres : ∀ c ∈ cs, ∃ vs, input_vars pl db c = Except.ok vs)
    (hne : q.objective_coefficients ≠ [])
    (hex : ∃ c ∈ cs, c.value = ClauseValue.question) :
    parse_inputs_loop pl db cs q =
      Except.error ("Only one objective may be specified.") := by
  induction cs generalizing q with
  | nil =>
    obtain ⟨c, hc, _⟩ := hex
    exact absurd hc (List.not_mem_nil c)
  | cons c cs ih =>
    obtain ⟨vs, hov⟩ := hres c (List.mem_cons_self c cs)
    by_cases hcq : c.value = ClauseValue.question
    · unfold parse_inputs_loop
      rw [process_input_q_err q hov hcq hne]
    · obtain ⟨q2, hp, hpr⟩ := process_input_nonq_ok q hov hcq
      unfold parse_inputs_loop
      rw [hp]
      obtain ⟨c', hc', hq'⟩ := hex
      rcases List.mem_cons.mp hc' with rfl | hc2
      · exact absurd hq' hcq
      · exact ih q2 (fun c'' hc'' => hres c'' (List.mem_cons_of_mem c hc''))
          (hpr.1 ▸ hne) ⟨c', hc2, hq'⟩

theorem parse_inputs_loop_err_2q {pl : String → String} {db : DB}
    {p1 : List InputClause} {c1 : InputClause} {p2 : List InputClause}
    (q : OptimizationQuery)
    (hres : ∀ c ∈ p1 ++ c1 :: p2, ∃ vs, input_vars pl db c = Except.ok vs)
    (hc1 : c1.value = ClauseValue.question)
    (hex : ∃ c ∈ p2, c.value = ClauseValue.question) :
    parse_inputs_loop pl db (p1 ++ c1 :: p2) q =
      Except.error ("Only one objective may be specified.") := by
  induction p1 generalizing q with
  | nil =>
    obtain ⟨vs, hov⟩ := hres c1 (List.mem_cons_self c1 p2)
    by_cases hemp : q.objective_coefficients = []
    · obtain ⟨q2, hp, hco, _⟩ := process_input_q_ok_of_empty q hov hc1 hemp
      simp only [List.nil_append]
      unfold parse_inputs_loop
      rw [hp]
      exact parse_inputs_loop_err_q q2
        (fun c hc => hres c (List.mem_cons_of_mem c1 hc))
        (hco ▸ mkDict_ne_nil vs (-1) (input_vars_ok_ne_nil hov)) hex
    · simp only [List.nil_append]
      unfold parse_inputs_loop
      rw [process_input_q_err q hov hc1 hemp]
  | cons a p1' ih =>
    obtain ⟨vsa, hova⟩ := hres a (List.mem_cons_self a _)
    by_cases haq : a.value = ClauseValue.question
    · by_cases hemp : q.objective_coefficients = []
      · obtain ⟨q2, hp, hco, _⟩ := process_input_q_ok_of_empty q hova haq hemp
        simp only [List.cons_append]
        unfold parse_inputs_loop
        rw [hp]
        exact parse_inputs_loop_err_q q2
          (fun c hc => hres c (List.mem_cons_of_mem a hc))
          (hco ▸ mkDict_ne_nil vsa (-1) (input_vars_ok_ne_nil hova))
          ⟨c1, by simp, hc1⟩
      · simp only [List.cons_append]
        unfold parse_inputs_loop
        rw [process_input_q_err q hova haq hemp]
    · obtain ⟨q2, hp, _⟩ := process_input_nonq_ok q hova haq
      simp only [List.cons_append]
      unfold parse_inputs_loop
      rw [hp]
      exact ih q2 (fun c hc => hres c (List.mem_cons_of_mem a hc))

/-! ### Includes and excludes never touch the objective -/

theorem include_strict_flags_fields (vs : List String) (q : OptimizationQuery) :
    (include_strict_flags q vs).objective_coefficients = q.objective_coefficients ∧
      (include_strict_flags q vs).maximize_objective = q.maximize_objective ∧
      (include_strict_flags q vs).eq_constraints = q.eq_constraints ∧
      (include_strict_flags q vs).le_constraints = q.le_constraints ∧
      (include_strict_flags q vs).ge_constraints = q.ge_constraints := by
  induction vs generalizing q with
  | nil => exact ⟨rfl, rfl, rfl, rfl, rfl⟩
  | cons v vs ih =>
    have hstep :
        ∀ r : OptimizationQuery,
          include_strict_flags r (v :: vs) =
            include_strict_flags
              (let r1 := if strStartsWith "recipe:" v then { r with strict_recipes := true } else r
               let r2 := if strStartsWith "power-recipe:" v then { r1 with strict_power_recipes := true } else r1
               let r3 := if strStartsWith "crafter:" v then { r2 with strict_crafters := true } else r2
               if strStartsWith "generator:" v then { r3 with strict_generators := true } else r3) vs :=
      fun r => rfl
    rw [hstep q]
    refine ⟨(ih _).1.trans ?_, (ih _).2.1.trans ?_, (ih _).2.2.1.trans ?_,
      (ih _).2.2.2.1.trans ?_, (ih _).2.2.2.2.trans ?_⟩ <;>
      (split <;> split <;> split <;> split <;> rfl)

theorem process_include_fields {pl : String → String} {db : DB} {c : IncludeClause}
    {q q' : OptimizationQuery} (h : process_include pl db c q = Except.ok q') :
    q'.objective_coefficients = q.objective_coefficients ∧
      q'.maximize_objective = q.maximize_objective ∧
      q'.eq_constraints = q.eq_constraints ∧
      q'.le_constraints = q.le_constraints := by
  cases hov : include_vars pl db c with
  | error e =>
    simp only [process_include, hov] at h
    exact Except.noConfusion h
  | ok vars =>
    simp only [process_include, hov, Except.ok.injEq] at h
    subst h
    have hf := include_strict_flags_fields vars
      { q with ge_constraints := updateAll q.ge_constraints vars 0 }
    exact ⟨hf.1, hf.2.1, hf.2.2.1, hf.2.2.2.1⟩

theorem parse_includes_loop_fields {pl : String → String} {db : DB}
    {cs : List IncludeClause} {q q' : OptimizationQuery}
    (h : parse_includes_loop pl db cs q = Except.ok q') :
    q'.objective_coefficients = q.objective_coefficients ∧
      q'.maximize_objective = q.maximize_objective ∧
      q'.eq_constraints = q.eq_constraints ∧
      q'.le_constraints = q.le_constraints := by
  induction cs generalizing q with
  | nil =>
    unfold parse_includes_loop at h
    injection h with h'
    subst h'
    exact ⟨rfl, rfl, rfl, rfl⟩
  | cons c cs ih =>
    unfold parse_includes_loop at h
    cases hp : process_include pl db c q with
    | error e => rw [hp] at h; exact Except.noConfusion h
    | ok q2 =>
      rw [hp] at h
      obtain ⟨h1, h2, h3, h4⟩ := process_include_fields hp
      obtain ⟨g1, g2, g3, g4⟩ := ih h
      exact ⟨g1.trans h1, g2.trans h2, g3.trans h3, g4.trans h4⟩

theorem parse_includes_fields {pl : String → String} {db : DB}
    {cs : List IncludeClause} {q q' : OptimizationQuery}
    (h : parse_includes pl db cs q = Except.ok q') :
    q'.objective_coefficients = q.objective_coefficients ∧
      q'.maximize_objective = q.maximize_objective ∧
      q'.eq_constraints = q.eq_constraints ∧
      q'.le_constraints = q.le_constraints := by
  unfold parse_includes at h
  split at h
  · injection h with h'
    subst h'
    exact ⟨rfl, rfl, rfl, rfl⟩
  · exact parse_includes_loop_fields h

theorem process_exclude_fields {pl : String → String} {db : DB} {c : ExcludeClause}
    {q q' : OptimizationQuery} (h : process_exclude pl db c q = Except.ok q') :
    q'.objective_coefficients = q.objective_coefficients ∧
      q'.maximize_objective = q.maximize_objective ∧
      q'.ge_constraints = q.ge_constraints ∧
      q'.le_constraints = q.le_constraints := by
  cases hov : exclude_vars pl db c with
  | error e =>
    simp only [process_exclude, hov] at h
    exact Except.noConfusion h
  | ok vars =>
    simp only [process_exclude, hov, Except.ok.injEq] at h
    subst h
    cases hb : exclude_is_byproducts c
    · exact ⟨rfl, rfl, rfl, rfl⟩
    · exact ⟨rfl, rfl, rfl, rfl⟩

theorem parse_excludes_loop_fields {pl : String → String} {db : DB}
    {cs : List ExcludeClause} {q q' : OptimizationQuery}
    (h : parse_excludes_loop pl db cs q = Except.ok q') :
    q'.objective_coefficients = q.objective_coefficients ∧
      q'.maximize_objective = q.maximize_objective ∧
      q'.ge_constraints = q.ge_constraints ∧
      q'.le_constraints = q.le_constraints := by
  induction cs generalizing q with
  | nil =>
    unfold parse_excludes_loop at h
    injection h with h'
    subst h'
    exact ⟨rfl, rfl, rfl, rfl⟩
  | cons c cs ih =>
    unfold parse_excludes_loop at h
    cases hp : process_exclude pl db c q with
    | error e => rw [hp] at h; exact Except.noConfusion h
    | ok q2 =>
      rw [hp] at h
      obtain ⟨h1, h2, h3, h4⟩ := process_exclude_fields hp
      obtain ⟨g1, g2, g3, g4⟩ := ih h
      exact ⟨g1.trans h1, g2.trans h2, g3.trans h3, g4.trans h4⟩

theorem parse_excludes_fields {pl : String → String} {db : DB}
    {cs : List ExcludeClause} {q q' : OptimizationQuery}
    (h : parse_excludes pl db cs q = Except.ok q') :
    q'.objective_coefficients = q.objective_coefficients ∧
      q'.maximize_objective = q.maximize_objective ∧
      q'.ge_constraints = q.ge_constraints ∧
      q'.le_constraints = q.le_constraints := by
  unfold parse_excludes at h
  split at h
  · injection h with h'
    subst h'
    exact ⟨rfl, rfl, rfl, rfl⟩
  · exact parse_excludes_loop_fields h

/-! ### Glue lemmas -/

theorem isEmpty_append_cons {α : Type} (l : List α) (a : α) (l' : List α) :
    (l ++ a :: l').isEmpty = false := by
  cases l <;> rfl

theorem parse_outputs_loop_cons (pl : String → String) (db : DB)
    (c : OutputClause) (cs : List OutputClause) (q : OptimizationQuery) :
    parse_outputs_loop pl db (c :: cs) q =
      match process_output pl db c q with
      | Except.error e => Except.error e
      | Except.ok q2 => parse_outputs_loop pl db cs q2 := rfl

theorem parse_outputs_loop_append (pl : String → String) (db : DB)
    (xs ys : List OutputClause) (q : OptimizationQuery) :
    parse_outputs_loop pl db (xs ++ ys) q =
      match parse_outputs_loop pl db xs q with
      | Except.error e => Except.error e
      | Except.ok q2 => parse_outputs_loop pl db ys q2 := by
  induction xs generalizing q with
  | nil => rfl
  | cons c cs ih =>
    rw [List.cons_append, parse_outputs_loop_cons, parse_outputs_loop_cons]
    cases hp : process_output pl db c q with
    | error e => rfl
    | ok q2 => exact ih q2

/-- Decidable equality for `Except` results, so that witnesses can be
checked by `decide`. -/
def exceptDecEq {e a : Type} [DecidableEq e] [DecidableEq a] :
    DecidableEq (Except e a) := fun x y =>
  match x, y with
  | Except.error u, Except.error v =>
    if h : u = v then isTrue (by rw [h])
    else isFalse (fun hc => h (by injection hc))
  | Except.error _, Except.ok _ => isFalse (fun hc => Except.noConfusion hc)
  | Except.ok _, Except.error _ => isFalse (fun hc => Except.noConfusion hc)
  | Except.ok u, Except.ok v =>
    if h : u = v then isTrue (by rw [h])
    else isFalse (fun hc => h (by injection hc))

instance {e a : Type} [DecidableEq e] [DecidableEq a] : DecidableEq (Except e a) :=
  exceptDecEq

/-! ### Concrete fixtures used by witnesses and counterexamples -/

/-- A simple pluralizer standing in for the external inflect engine. -/
def plS : String → String := fun s => s ++ "s"

/-- The Iron Rod item. -/
def ironRod : CatalogVar :=
  { human_readable_name := "Iron Rod", varName := "item:iron-rod",
    slug := "iron-rod", isResource := false, isAlternate := false }

/-- A catalog containing just the Iron Rod item. -/
def dbIron : DB :=
  { items := [ironRod], recipes := [], power_recipes := [], crafters := [],
    generators := [], recipes_for_product := fun _ => [] }

/-- C1 counterexample: compiling `produce ? iron rods` — exactly one `?`
output clause and no input clause — yields `maximize_objective = false`
and the `unweighted-resources` default objective, because `_parse_inputs`
unconditionally overwrites the objective when the input clause list is
empty; the claim requires `maximize_objective = true` with coefficient 1
on `item:iron-rod` regardless of input-clause presence. -/
theorem claim_C1_counterexample :
    (parse_optimization_query plS dbIron
        [{ strict := false, value := ClauseValue.question,
           target := ClauseTarget.entity "iron rods" }] [] [] []).toOption.map
      (fun q => (q.maximize_objective, q.objective_coefficients)) =
      some (false, [("unweighted-resources", -1)]) := by decide

/-- C1 (amended): for every optimization query whose outputs contain
exactly one `?` clause, *provided at least one input clause is present*,
successful compilation yields `maximize_objective = true` and the
objective coefficients map each var matched by that clause to 1; with no
input clause the inputs handler overwrites this objective with the
unweighted-resources default (see the counterexample). -/
theorem claim_C1_amended {pl : String → String} {db : DB}
    {o1 : List OutputClause} {c : OutputClause} {o2 : List OutputClause}
    {ins : List InputClause} {incs : List IncludeClause} {excs : List ExcludeClause}
    {vars : List String} {q : OptimizationQuery}
    (hc : c.value = ClauseValue.question)
    (h1 : ∀ c' ∈ o1, c'.value ≠ ClauseValue.question)
    (h2 : ∀ c' ∈ o2, c'.value ≠ ClauseValue.question)
    (hins : ins ≠ [])
    (hov : output_vars pl db c = Except.ok vars)
    (h : parse_optimization_query pl db (o1 ++ c :: o2) ins incs excs = Except.ok q) :
    q.maximize_objective = true ∧ q.objective_coefficients = mkDict vars 1 := by
  cases ho : parse_outputs pl db (o1 ++ c :: o2) initQuery with
  | error e =>
    simp only [parse_optimization_query, ho] at h
    exact Except.noConfusion h
  | ok q1 =>
    -- characterize q1 from the outputs loop
    have ho' : parse_outputs_loop pl db (o1 ++ c :: o2) initQuery = Except.ok q1 := by
      have hx := ho
      unfold parse_outputs at hx
      rwa [isEmpty_append_cons, if_neg (by simp)] at hx
    rw [parse_outputs_loop_append] at ho'
    cases hA : parse_outputs_loop pl db o1 initQuery with
    | error e => rw [hA] at ho'; exact Except.noConfusion ho'
    | ok qa =>
      rw [hA] at ho'
      have hoB : parse_outputs_loop pl db (c :: o2) qa = Except.ok q1 := ho'
      rw [parse_outputs_loop_cons] at hoB
      cases hpc : process_output pl db c qa with
      | error e => rw [hpc] at hoB; exact Except.noConfusion hoB
      | ok qb =>
        rw [hpc] at hoB
        have hoC : parse_outputs_loop pl db o2 qb = Except.ok q1 := hoB
        have hprA := parse_outputs_loop_nonq h1 hA
        obtain ⟨_, vars', hov', hcoB, hmaxB⟩ := process_output_q_ok hc hpc
        have hvars : vars' = vars := by
          rw [hov] at hov'
          injection hov' with h'
          exact h'.symm
        rw [hvars] at hcoB
        have hprC := parse_outputs_loop_nonq h2 hoC
        have hq1co : q1.objective_coefficients = mkDict vars 1 := hprC.1.trans hcoB
        have hq1max : q1.maximize_objective = true := hprC.2.trans hmaxB
        have hq1ne : q1.objective_coefficients ≠ [] := by
          rw [hq1co]
          exact mkDict_ne_nil vars 1 (output_vars_ok_ne_nil hov)
        -- inputs preserve the objective because one is already set
        cases hi : parse_inputs pl db ins q1 with
        | error e =>
          simp only [parse_optimization_query, ho, hi] at h
          exact Except.noConfusion h
        | ok q2 =>
          have hi' : parse_inputs_loop pl db ins q1 = Except.ok q2 := by
            obtain ⟨i, is, rfl⟩ := List.exists_cons_of_ne_nil hins
            have hx := hi
            unfold parse_inputs at hx
            rwa [if_neg (by simp)] at hx
          have hpr2 := parse_inputs_loop_pres hi' hq1ne
          cases hinc : parse_includes pl db incs q2 with
          | error e =>
            simp only [parse_optimization_query, ho, hi, hinc] at h
            exact Except.noConfusion h
          | ok q3 =>
            cases hexc : parse_excludes pl db excs q3 with
            | error e =>
              simp only [parse_optimization_query, ho, hi, hinc, hexc] at h
              exact Except.noConfusion h
            | ok q4 =>
              simp only [parse_optimization_query, ho, hi, hinc, hexc,
                Except.ok.injEq] at h
              subst h
              obtain ⟨i1, i2, _, _⟩ := parse_includes_fields hinc
              obtain ⟨e1, e2, _, _⟩ := parse_excludes_fields hexc
              constructor
              · exact e2.trans (i2.trans (hpr2.2.trans hq1max))
              · exact e1.trans (i1.trans (hpr2.1.trans hq1co))

/-- The `? iron rods` output clause used in witnesses. -/
def outQuestion : OutputClause :=
  { strict := false, value := ClauseValue.question,
    target := ClauseTarget.entity "iron rods" }

/-- The `60 iron rods` output clause used in witnesses. -/
def out60 : OutputClause :=
  { strict := false, value := ClauseValue.num 60,
    target := ClauseTarget.entity "iron rods" }

/-- The `from 60 power` input clause used in witnesses. -/
def inPower60 : InputClause :=
  { strict := false, value := ClauseValue.num 60,
    target := ClauseTarget.literal "power" }

/-- Expected compilation result of `produce ? iron rods from 60 power`. -/
def qC1 : OptimizationQuery :=
  { maximize_objective := true,
    objective_coefficients := [("item:iron-rod", 1)],
    eq_constraints := [],
    ge_constraints := [("power", -60)],
    le_constraints := [],
    strict_outputs := false, strict_inputs := false, strict_recipes := false,
    strict_power_recipes := false, strict_crafters := false,
    strict_generators := false, has_power_output := false }

/-- C1 amended witness: `produce ? iron rods from 60 power` (an input
clause is present) compiles with the maximizing objective on
`item:iron-rod`. -/
theorem claim_C1_amended_witness :
    output_vars plS dbIron outQuestion = Except.ok ["item:iron-rod"] ∧
    parse_optimization_query plS dbIron [outQuestion] [inPower60] [] [] =
      Except.ok qC1 ∧
    (qC1.maximize_objective = true ∧
      qC1.objective_coefficients = mkDict ["item:iron-rod"] 1) :=
  ⟨by decide, by decide,
    @claim_C1_amended plS dbIron [] outQuestion [] [inPower60] [] []
      ["item:iron-rod"] qC1
      rfl (by simp) (by simp) (by simp) (by decide) (by decide)⟩

/-- C2: an optimization query with no input clause and no `?` marker
compiles to the minimizing default objective
`{unweighted-resources: -1}`. -/
theorem claim_C2_default_objective {pl : String → String} {db : DB}
    {outs : List OutputClause} {incs : List IncludeClause} {excs : List ExcludeClause}
    {q : OptimizationQuery}
    (hnq : ∀ c ∈ outs, c.value ≠ ClauseValue.question)
    (h : parse_optimization_query pl db outs [] incs excs = Except.ok q) :
    q.maximize_objective = false ∧
      q.objective_coefficients = [("unweighted-resources", -1)] := by
  cases ho : parse_outputs pl db outs initQuery with
  | error e =>
    simp only [parse_optimization_query, ho] at h
    exact Except.noConfusion h
  | ok q1 =>
    cases hi : parse_inputs pl db ([] : List InputClause) q1 with
    | error e => exact absurd hi (by simp [parse_inputs])
    | ok q2 =>
      have hq2 : q2 = { q1 with
          maximize_objective := false,
          objective_coefficients := [("unweighted-resources", -1)] } := by
        have hx : parse_inputs pl db ([] : List InputClause) q1 =
            Except.ok { q1 with
              maximize_objective := false,
              objective_coefficients := [("unweighted-resources", -1)] } := rfl
        rw [hi] at hx
        injection hx
      cases hinc : parse_includes pl db incs q2 with
      | error e =>
        simp only [parse_optimization_query, ho, hi, hinc] at h
        exact Except.noConfusion h
      | ok q3 =>
        cases hexc : parse_excludes pl db excs q3 with
        | error e =>
          simp only [parse_optimization_query, ho, hi, hinc, hexc] at h
          exact Except.noConfusion h
        | ok q4 =>
          simp only [parse_optimization_query, ho, hi, hinc, hexc,
            Except.ok.injEq] at h
          subst h
          obtain ⟨i1, i2, _, _⟩ := parse_includes_fields hinc
          obtain ⟨e1, e2, _, _⟩ := parse_excludes_fields hexc
          subst hq2
          exact ⟨e2.trans i2, e1.trans i1⟩

/-- Expected compilation result of `produce 60 iron rods`. -/
def qC2 : OptimizationQuery :=
  { maximize_objective := false,
    objective_coefficients := [("unweighted-resources", -1)],
    eq_constraints := [("item:iron-rod", 60)],
    ge_constraints := [],
    le_constraints := [],
    strict_outputs := false, strict_inputs := false, strict_recipes := false,
    strict_power_recipes := false, strict_crafters := false,
    strict_generators := false, has_power_output := false }

/-- C2 witness: `produce 60 iron rods` with no input clause. -/
theorem claim_C2_default_objective_witness :
    parse_optimization_query plS dbIron [out60] [] [] [] = Except.ok qC2 ∧
    (qC2.maximize_objective = false ∧
      qC2.objective_coefficients = [("unweighted-resources", -1)]) :=
  ⟨by decide,
    @claim_C2_default_objective plS dbIron [out60] [] [] qC2
      (by simp [out60]) (by decide)⟩

/-- C3: a query with two `?` markers — both among the outputs, one in the
outputs and one in the inputs, or both among the inputs — fails to compile
with the error `Only one objective may be specified.` (provided every
clause's entity expression resolves, since resolution runs before the
objective check and would otherwise fail first with a resolution error;
either way no query object is produced). -/
theorem claim_C3_two_objectives (pl : String → String) (db : DB) :
    (∀ (p1 : List OutputClause) (c1 : OutputClause) (p2 : List OutputClause)
        (ins : List InputClause) (incs : List IncludeClause) (excs : List ExcludeClause),
      (∀ c ∈ p1 ++ c1 :: p2, ∃ vs, output_vars pl db c = Except.ok vs) →
      c1.value = ClauseValue.question →
      (∃ c ∈ p2, c.value = ClauseValue.question) →
      parse_optimization_query pl db (p1 ++ c1 :: p2) ins incs excs =
        Except.error ("Only one objective may be specified.")) ∧
    (∀ (o1 : List OutputClause) (c1 : OutputClause) (o2 : List OutputClause)
        (ins : List InputClause) (incs : List IncludeClause) (excs : List ExcludeClause),
      (∀ c ∈ o1 ++ c1 :: o2, ∃ vs, output_vars pl db c = Except.ok vs) →
      (∀ c ∈ ins, ∃ vs, input_vars pl db c = Except.ok vs) →
      c1.value = ClauseValue.question →
      (∀ c ∈ o1, c.value ≠ ClauseValue.question) →
      (∀ c ∈ o2, c.value ≠ ClauseValue.question) →
      (∃ c ∈ ins, c.value = ClauseValue.question) →
      parse_optimization_query pl db (o1 ++ c1 :: o2) ins incs excs =
        Except.error ("Only one objective may be specified.")) ∧
    (∀ (outs : List OutputClause) (i1 : List InputClause) (c1 : InputClause)
        (i2 : List InputClause) (incs : List IncludeClause) (excs : List ExcludeClause),
      outs ≠ [] →
      (∀ c ∈ outs, ∃ vs, output_vars pl db c = Except.ok vs) →
      (∀ c ∈ i1 ++ c1 :: i2, ∃ vs, input_vars pl db c = Except.ok vs) →
      (∀ c ∈ outs, c.value ≠ ClauseValue.question) →
      c1.value = ClauseValue.question →
      (∃ c ∈ i2, c.value = ClauseValue.question) →
      parse_optimization_query pl db outs (i1 ++ c1 :: i2) incs excs =
        Except.error ("Only one objective may be specified.")) := by
  refine ⟨?_, ?_, ?_⟩
  · intro p1 c1 p2 ins incs excs hres hc1 hex
    have hout : parse_outputs pl db (p1 ++ c1 :: p2) initQuery =
        Except.error ("Only one objective may be specified.") := by
      unfold parse_outputs
      rw [isEmpty_append_cons, if_neg (by simp)]
      exact parse_outputs_loop_err_2q initQuery hres hc1 hex
    simp only [parse_optimization_query, hout]
  · intro o1 c1 o2 ins incs excs hres hresin hc1 hnq1 hnq2 hexin
    obtain ⟨qa, hA, hprA⟩ := parse_outputs_loop_nonq_ok initQuery
      (fun c hc => hres c (by simp [hc])) hnq1
    obtain ⟨vs, hov⟩ := hres c1 (by simp)
    obtain ⟨qb, hB, hcoB, hmaxB⟩ := process_output_q_ok_of_empty qa hov hc1 hprA.1
    obtain ⟨q1, hC, hprC⟩ := parse_outputs_loop_nonq_ok qb
      (fun c hc => hres c (by simp [hc])) hnq2
    have hout : parse_outputs pl db (o1 ++ c1 :: o2) initQuery = Except.ok q1 := by
      unfold parse_outputs
      rw [isEmpty_append_cons, if_neg (by simp)]
      rw [parse_outputs_loop_append, hA]
      show parse_outputs_loop pl db (c1 :: o2) qa = Except.ok q1
      rw [parse_outputs_loop_cons, hB]
      exact hC
    have hq1ne : q1.objective_coefficients ≠ [] := by
      rw [hprC.1, hcoB]
      exact mkDict_ne_nil vs 1 (output_vars_ok_ne_nil hov)
    have hinp : parse_inputs pl db ins q1 =
        Except.error ("Only one objective may be specified.") := by
      have hinsne : ins ≠ [] := by
        obtain ⟨c', hc', _⟩ := hexin
        exact List.ne_nil_of_mem hc'
      obtain ⟨i, is, rfl⟩ := List.exists_cons_of_ne_nil hinsne
      unfold parse_inputs
      rw [if_neg (by simp)]
      exact parse_inputs_loop_err_q q1 hresin hq1ne hexin
    simp only [parse_optimization_query, hout, hinp]
  · intro outs i1 c1 i2 incs excs houtne hres hresin hnq hc1 hex
    obtain ⟨q1, hA, hprA⟩ := parse_outputs_loop_nonq_ok initQuery hres hnq
    have hout : parse_outputs pl db outs initQuery = Except.ok q1 := by
      obtain ⟨o, os, rfl⟩ := List.exists_cons_of_ne_nil houtne
      unfold parse_outputs
      rw [if_neg (by simp)]
      exact hA
    have hinp : parse_inputs pl db (i1 ++ c1 :: i2) q1 =
        Except.error ("Only one objective may be specified.") := by
      unfold parse_inputs
      rw [isEmpty_append_cons, if_neg (by simp)]
      exact parse_inputs_loop_err_2q q1 hresin hc1 hex
    simp only [parse_optimization_query, hout, hinp]

/-- The `? power` output clause used in the C3 witness. -/
def outQPower : OutputClause :=
  { strict := false, value := ClauseValue.question,
    target := ClauseTarget.literal "power" }

/-- The `? tickets` output clause used in the C3 witness. -/
def outQTickets : OutputClause :=
  { strict := false, value := ClauseValue.question,
    target := ClauseTarget.literal "tickets" }

/-- C3 witness: `produce ? power and ? tickets` — two `?` output clauses —
fails with the `Only one objective` error. -/
theorem claim_C3_two_objectives_witness :
    outQPower.value = ClauseValue.question ∧
    outQTickets.value = ClauseValue.question ∧
    parse_optimization_query plS dbIron [outQPower, outQTickets] [] [] [] =
      Except.error ("Only one objective may be specified.") := by
  refine ⟨rfl, rfl, ?_⟩
  have h := (claim_C3_two_objectives plS dbIron).1 [] outQPower [outQTickets]
    [] [] []
    (by
      intro c hc
      simp only [List.nil_append, List.mem_cons, List.not_mem_nil, or_false] at hc
      rcases hc with rfl | rfl
      · exact ⟨["power"], rfl⟩
      · exact ⟨["tickets"], rfl⟩)
    rfl ⟨outQTickets, by simp, rfl⟩
  simpa using h

/-- The standard Iron Rod recipe. -/
def recipeIronRod : CatalogVar :=
  { human_readable_name := "Recipe: Iron Rod", varName := "recipe:iron-rod",
    slug := "iron-rod", isResource := false, isAlternate := false }

/-- A catalog with the Iron Rod item and its recipe. -/
def dbC4 : DB :=
  { items := [ironRod], recipes := [recipeIronRod], power_recipes := [],
    crafters := [], generators := [], recipes_for_product := fun _ => [] }

/-- The `using iron rod` include clause. -/
def incIron : IncludeClause := { target := ClauseTarget.entity "iron rod" }

/-- The `without iron rod` exclude clause. -/
def excIron : ExcludeClause := { target := ExcludeTarget.entity "iron rod" }

/-- C4 counterexample: compiling `produce 60 iron rods using iron rod
without iron rod` leaves `recipe:iron-rod` as a key of *both*
`ge_constraints` (written by the include handler) and `eq_constraints`
(written later by the exclude handler): the later write to a different
map does not remove the earlier entry, contradicting the claim that each
var appears in at most one of the three maps. -/
theorem claim_C4_counterexample :
    (parse_optimization_query plS dbC4 [out60] [] [incIron] [excIron]).toOption.map
      (fun q => (lookupDict q.ge_constraints "recipe:iron-rod",
                 lookupDict q.eq_constraints "recipe:iron-rod")) =
      some (some 0, some 0) := by decide

/-- C4 (amended): clause handlers run in the order
outputs → inputs → includes → excludes (definitional in
`parse_optimization_query`), and a later clause writing the *same*
constraint map replaces that var's bound (`updateEntry` overwrites in
place); but a later clause writing a *different* map leaves the earlier
entry: excludes never modify `ge`/`le` and includes never modify
`eq`/`le`, so one var may appear in several of the three maps at once. -/
theorem claim_C4_amended :
    (∀ (m : List (String × Int)) (k : String) (v : Int),
      lookupDict (updateEntry m k v) k = some v) ∧
    (∀ (pl : String → String) (db : DB) (excs : List ExcludeClause)
        (q q' : OptimizationQuery),
      parse_excludes pl db excs q = Except.ok q' →
      q'.ge_constraints = q.ge_constraints ∧ q'.le_constraints = q.le_constraints) ∧
    (∀ (pl : String → String) (db : DB) (incs : List IncludeClause)
        (q q' : OptimizationQuery),
      parse_includes pl db incs q = Except.ok q' →
      q'.eq_constraints = q.eq_constraints ∧ q'.le_constraints = q.le_constraints) := by
  refine ⟨lookupDict_updateEntry, ?_, ?_⟩
  · intro pl db excs q q' h
    obtain ⟨_, _, h3, h4⟩ := parse_excludes_fields h
    exact ⟨h3, h4⟩
  · intro pl db incs q q' h
    obtain ⟨_, _, h3, h4⟩ := parse_includes_fields h
    exact ⟨h3, h4⟩

/-- Result of running the exclude handler on `qC2`. -/
def qC4x : OptimizationQuery :=
  { maximize_objective := false,
    objective_coefficients := [("unweighted-resources", -1)],
    eq_constraints := [("item:iron-rod", 60), ("recipe:iron-rod", 0)],
    ge_constraints := [],
    le_constraints := [],
    strict_outputs := false, strict_inputs := false, strict_recipes := false,
    strict_power_recipes := false, strict_crafters := false,
    strict_generators := false, has_power_output := false }

/-- C4 amended witness: a dictionary overwrite and a concrete exclude run
that preserves the `ge`/`le` maps. -/
theorem claim_C4_amended_witness :
    lookupDict (updateEntry [("a", 1)] "a" 2) "a" = some 2 ∧
    parse_excludes plS dbC4 [excIron] qC2 = Except.ok qC4x ∧
    (qC4x.ge_constraints = qC2.ge_constraints ∧
      qC4x.le_constraints = qC2.le_constraints) :=
  ⟨claim_C4_amended.1 [("a", 1)] "a" 2, by decide,
    claim_C4_amended.2.1 plS dbC4 [excIron] qC2 qC4x (by decide)⟩

/-- An item whose display name and slug contain an underscore. -/
def undItem : CatalogVar :=
  { human_readable_name := "iron_rod", varName := "item:iron_rod",
    slug := "iron_rod", isResource := false, isAlternate := false }

/-- A catalog containing only `undItem`. -/
def dbU : DB :=
  { items := [undItem], recipes := [], power_recipes := [], crafters := [],
    generators := [], recipes_for_product := fun _ => [] }

/-- C9 counterexample: `iron_rod` and `iron-rod` differ only in the choice
of separator, yet against a catalog entity named `iron_rod` the first
matches (via the regex fallback, whose pattern keeps the raw separators)
and the second does not: the match sets differ, refuting full
separator-insensitivity. -/
theorem claim_C9_counterexample :
    get_matches plS dbU "iron_rod" ["item"] = [undItem] ∧
    get_matches plS dbU "iron-rod" ["item"] = [] := ⟨by decide, by decide⟩

/-- C9 (amended): entity resolution is case-insensitive — any two
expressions that agree after Python `strip().lower()` produce identical
match sets (so `Iron Rod`, `IRON ROD`, `iron rod` resolve identically);
separator variants agree on all token-comparison rules, but the regex
fallback receives the raw lowered expression, so separator variants can
produce different match sets (see the counterexample). -/
theorem claim_C9_amended (pl : String → String) (db : DB) (ts : List String)
    (e1 e2 : String) (h : pyLower (pyStrip e1) = pyLower (pyStrip e2)) :
    get_matches pl db e1 ts = get_matches pl db e2 ts := by
  have hcv : ∀ v, check_var pl e1 v = check_var pl e2 v := by
    intro v
    unfold check_var
    rw [h]
  unfold get_matches
  simp only [hcv]

/-- C9 amended witness: `Iron Rod` and `IRON ROD` resolve identically. -/
theorem claim_C9_amended_witness :
    pyLower (pyStrip "Iron Rod") = pyLower (pyStrip "IRON ROD") ∧
    get_matches plS dbIron "Iron Rod" ["item"] =
      get_matches plS dbIron "IRON ROD" ["item"] :=
  ⟨by decide, claim_C9_amended plS dbIron ["item"] "Iron Rod" "IRON ROD" (by decide)⟩

/-- C10 (amended): a successful `recipe for <X>` (or `<X> recipe`) query
returns exactly the non-alternate recipes producing the matched items
when at least one exists, and all producing recipes when every one is an
alternate; a bare `recipe <X>` query is routed to the single-recipe
handler instead, which returns exactly the recipes whose *names* match
the expression, with no producing-recipe lookup and no alternate
filtering (see the counterexample). -/
theorem claim_C10_recipe_for :
    (∀ (pl : String → String) (db : DB) (expr : String) (q : InfoQuery),
      parse_recipe_for_query pl db expr = Except.ok q →
      ((∃ r ∈ (get_matches pl db expr ["item"]).flatMap
          (fun m => db.recipes_for_product m.varName), r.isAlternate = false) →
        q.vars = ((get_matches pl db expr ["item"]).flatMap
          (fun m => db.recipes_for_product m.varName)).filter (fun r => !r.isAlternate)) ∧
      ((∀ r ∈ (get_matches pl db expr ["item"]).flatMap
          (fun m => db.recipes_for_product m.varName), r.isAlternate = true) →
        q.vars = (get_matches pl db expr ["item"]).flatMap
          (fun m => db.recipes_for_product m.varName))) ∧
    (∀ (pl : String → String) (db : DB) (expr : String) (q : InfoQuery),
      parse_single_recipe_query pl db expr = Except.ok q →
      q.vars = get_matches pl db expr ["recipe"]) := by
  constructor
  · intro pl db expr q h
    simp only [parse_recipe_for_query] at h
    split at h
    · exact Except.noConfusion h
    · split at h
      · rename_i hpos
        injection h with h'
        subst h'
        constructor
        · intro _
          rfl
        · intro hall
          exfalso
          have hnil : ((get_matches pl db expr ["item"]).flatMap
              (fun m => db.recipes_for_product m.varName)).filter
                (fun r => !r.isAlternate) = [] := by
            apply List.filter_eq_nil_iff.mpr
            intro r hr
            simp [hall r hr]
          rw [hnil] at hpos
          exact absurd hpos (by simp)
      · rename_i hneg
        injection h with h'
        subst h'
        constructor
        · intro ⟨r, hr, hra⟩
          exfalso
          have hmem : r ∈ ((get_matches pl db expr ["item"]).flatMap
              (fun m => db.recipes_for_product m.varName)).filter
                (fun r => !r.isAlternate) :=
            List.mem_filter.mpr ⟨hr, by simp [hra]⟩
          have := List.ne_nil_of_mem hmem
          exact hneg (List.length_pos.mpr this)
        · intro _
          rfl
  · intro pl db expr q h
    simp only [parse_single_recipe_query] at h
    split at h
    · exact Except.noConfusion h
    · injection h with h'
      subst h'
      rfl

/-- The Screw item. -/
def screwItem : CatalogVar :=
  { human_readable_name := "Screw", varName := "item:screw",
    slug := "screw", isResource := false, isAlternate := false }

/-- The standard Screw recipe. -/
def recipeScrew : CatalogVar :=
  { human_readable_name := "Recipe: Screw", varName := "recipe:screw",
    slug := "screw", isResource := false, isAlternate := false }

/-- The alternate Cast Screw recipe. -/
def recipeCastScrew : CatalogVar :=
  { human_readable_name := "Recipe: Alternate: Cast Screw",
    varName := "recipe:alternate:cast-screw", slug := "alternate:cast-screw",
    isResource := false, isAlternate := true }

/-- Catalog for the C10 witness: both a standard and an alternate recipe
produce the Screw. -/
def dbScrew : DB :=
  { items := [screwItem], recipes := [recipeScrew, recipeCastScrew],
    power_recipes := [], crafters := [], generators := [],
    recipes_for_product := fun v =>
      if v == "item:screw" then [recipeScrew, recipeCastScrew] else [] }

/-- C10 counterexample: the claim also covers bare `recipe <X>` queries,
which the grammar routes to `_parse_single_recipe_query` (grammar lines
135-137 and 154; dispatch at line 489, before `recipe-for`).  For
`recipe screws` the entity expression `screws` matches the Screw item
and a non-alternate producing recipe exists, yet the single-recipe
handler — resolving the expression against recipe names only — fails
with a resolution error instead of returning that recipe list. -/
theorem claim_C10_counterexample :
    get_matches plS dbScrew "screws" ["item"] = [screwItem] ∧
    (dbScrew.recipes_for_product screwItem.varName).filter
      (fun r => !r.isAlternate) = [recipeScrew] ∧
    parse_single_recipe_query plS dbScrew "screws" =
      Except.error ("Could not parse recipe expression 'screws'.") :=
  ⟨by decide, by decide, by decide⟩

/-- C10 amended witness: `recipe for screws` returns only the standard
producing recipe, while the bare `recipe screw` query returns the
recipes whose names match `screw`. -/
theorem claim_C10_recipe_for_witness :
    parse_recipe_for_query plS dbScrew "screws" = Except.ok ⟨[recipeScrew]⟩ ∧
    (⟨[recipeScrew]⟩ : InfoQuery).vars =
      ((get_matches plS dbScrew "screws" ["item"]).flatMap
        (fun m => dbScrew.recipes_for_product m.varName)).filter
          (fun r => !r.isAlternate) ∧
    parse_single_recipe_query plS dbScrew "screw" = Except.ok ⟨[recipeScrew]⟩ ∧
    (⟨[recipeScrew]⟩ : InfoQuery).vars = get_matches plS dbScrew "screw" ["recipe"] :=
  ⟨by decide,
    (claim_C10_recipe_for.1 plS dbScrew "screws" ⟨[recipeScrew]⟩ (by decide)).1
      ⟨recipeScrew, by decide, rfl⟩,
    by decide,
    claim_C10_recipe_for.2 plS dbScrew "screw" ⟨[recipeScrew]⟩ (by decide)⟩

/-! ### C6: base recipe selection -/

theorem findBaseRecipe_none (slug : String) (l : List CatalogVar)
    (h : ∀ x ∈ l, x.slug ≠ slug) : findBaseRecipe slug l = none := by
  induction l with
  | nil => rfl
  | cons r rest ih =>
    have hb : (r.slug == slug) = false :=
      beq_eq_false_iff_ne.mpr (h r (List.mem_cons_self r rest))
    simp only [findBaseRecipe, hb, Bool.false_eq_true, if_false]
    rw [ih (fun x hx => h x (List.mem_cons_of_mem r hx))]
    rfl

theorem findBaseRecipe_first (slug : String) (pre : List CatalogVar)
    (b : CatalogVar) (post : List CatalogVar) (hb : b.slug = slug)
    (hpre : ∀ x ∈ pre, x.slug ≠ slug) :
    findBaseRecipe slug (pre ++ b :: post) = some (b, pre ++ post) := by
  induction pre with
  | nil =>
    simp only [List.nil_append, findBaseRecipe, beq_iff_eq.mpr hb, if_true]
  | cons a pre' ih =>
    have ha : (a.slug == slug) = false :=
      beq_eq_false_iff_ne.mpr (hpre a (List.mem_cons_self a pre'))
    simp only [List.cons_append, findBaseRecipe, ha, Bool.false_eq_true, if_false,
      List.append_eq]
    rw [ih (fun x hx => hpre x (List.mem_cons_of_mem a hx))]
    rfl

theorem pick_base_two (product : CatalogVar) (ex : Bool) (l : List CatalogVar)
    (hlen : 2 ≤ l.length) :
    pick_base product ex l =
      match findBaseRecipe product.slug l with
      | some p => Except.ok ⟨product, p.1, p.2, ex⟩
      | none =>
        Except.error ("Could not find base recipe for "
          ++ product.human_readable_name) := by
  match l with
  | [] => simp at hlen
  | [x] => simp at hlen
  | x :: y :: t => rfl

/-- C6: for a recipe-compare query whose product item resolves uniquely —
if exactly one recipe produces the item it becomes the base with an empty
related list; if several produce it, the (first) one whose slug equals the
product's slug becomes the base and the rest are the related recipes; and
if several produce it but none has a matching slug, compilation fails
with the `Could not find base recipe` error. -/
theorem claim_C6_base_recipe {pl : String → String} {db : DB} {expr : String}
    {ex : Bool} {product : CatalogVar}
    (hm : get_matches pl db expr ["item"] = [product]) :
    (∀ r, db.recipes_for_product product.varName = [r] →
      parse_recipe_compare_query pl db expr ex =
        Except.ok ⟨product, r, [], ex⟩) ∧
    (∀ pre b post, db.recipes_for_product product.varName = pre ++ b :: post →
      2 ≤ (pre ++ b :: post).length → b.slug = product.slug →
      (∀ x ∈ pre, x.slug ≠ product.slug) →
      parse_recipe_compare_query pl db expr ex =
        Except.ok ⟨product, b, pre ++ post, ex⟩) ∧
    (2 ≤ (db.recipes_for_product product.varName).length →
      (∀ x ∈ db.recipes_for_product product.varName, x.slug ≠ product.slug) →
      parse_recipe_compare_query pl db expr ex =
        Except.error ("Could not find base recipe for "
          ++ product.human_readable_name)) := by
  have hred : parse_recipe_compare_query pl db expr ex =
      pick_base product ex (db.recipes_for_product product.varName) := by
    simp only [parse_recipe_compare_query, hm]
  refine ⟨?_, ?_, ?_⟩
  · intro r hr
    rw [hred, hr]
    rfl
  · intro pre b post hl hlen hb hpre
    rw [hred, hl, pick_base_two product ex _ hlen,
      findBaseRecipe_first product.slug pre b post hb hpre]
  · intro hlen hnone
    rw [hred, pick_base_two product ex _ hlen,
      findBaseRecipe_none product.slug _ hnone]

/-- The alternate Steel Screw recipe (no slug match with the Screw item). -/
def recipeSteelScrew : CatalogVar :=
  { human_readable_name := "Recipe: Alternate: Steel Screw",
    varName := "recipe:alternate:steel-screw", slug := "alternate:steel-screw",
    isResource := false, isAlternate := true }

/-- Catalog whose sole Screw producer is the standard recipe. -/
def dbScrewOne : DB :=
  { items := [screwItem], recipes := [recipeScrew], power_recipes := [],
    crafters := [], generators := [],
    recipes_for_product := fun v =>
      if v == "item:screw" then [recipeScrew] else [] }

/-- Catalog where an alternate precedes the standard Screw recipe. -/
def dbScrewTwo : DB :=
  { items := [screwItem], recipes := [recipeCastScrew, recipeScrew],
    power_recipes := [], crafters := [], generators := [],
    recipes_for_product := fun v =>
      if v == "item:screw" then [recipeCastScrew, recipeScrew] else [] }

/-- Catalog where every Screw producer is an alternate (no slug match). -/
def dbScrewAlts : DB :=
  { items := [screwItem], recipes := [recipeCastScrew, recipeSteelScrew],
    power_recipes := [], crafters := [], generators := [],
    recipes_for_product := fun v =>
      if v == "item:screw" then [recipeCastScrew, recipeSteelScrew] else [] }

/-- C6 witness: the three base-recipe selection outcomes on concrete
catalogs. -/
theorem claim_C6_base_recipe_witness :
    parse_recipe_compare_query plS dbScrewOne "screws" false =
      Except.ok ⟨screwItem, recipeScrew, [], false⟩ ∧
    parse_recipe_compare_query plS dbScrewTwo "screws" false =
      Except.ok ⟨screwItem, recipeScrew, [recipeCastScrew], false⟩ ∧
    parse_recipe_compare_query plS dbScrewAlts "screws" false =
      Except.error ("Could not find base recipe for "
        ++ screwItem.human_readable_name) :=
  ⟨(@claim_C6_base_recipe plS dbScrewOne "screws" false screwItem
      (by decide)).1 recipeScrew (by decide),
   (@claim_C6_base_recipe plS dbScrewTwo "screws" false screwItem
      (by decide)).2.1
     [recipeCastScrew] recipeScrew [] (by decide) (by decide) (by decide) (by decide),
   (@claim_C6_base_recipe plS dbScrewAlts "screws" false screwItem
      (by decide)).2.2 (by decide) (by decide)⟩

/-! ### C5, C7, C8 -/

/-- C5: in flow-graph construction each (source, sink) edge for an item
carries `source_amount × sink_amount / total_sink_demand`; on the concrete
30/10 sources and 20/20 sinks instance the edges are 15, 15, 5, 5; and for
every source the outgoing edge amounts sum to exactly the source amount
(flow conservation, provided the total sink demand is nonzero — with a
zero total the source loop would divide by zero). -/
theorem claim_C5_flow_edges :
    (∀ (source : String) (s : ℚ) (sinks : List (String × ℚ)),
      edges_from_source source s sinks =
        sinks.map (fun p => (source, p.1, s * p.2 / (sinks.map (fun p => p.2)).sum))) ∧
    item_edges [("A", 30), ("B", 10)] [("X", 20), ("Y", 20)] =
      [("A", "X", 15), ("A", "Y", 15), ("B", "X", 5), ("B", "Y", 5)] ∧
    (∀ (source : String) (s : ℚ) (sinks : List (String × ℚ)),
      (sinks.map (fun p => p.2)).sum ≠ 0 →
      ((edges_from_source source s sinks).map (fun e => e.2.2)).sum = s) := by
  refine ⟨?_, ?_, ?_⟩
  · intro source s sinks
    unfold edges_from_source
    apply List.map_congr_left
    intro p hp
    rw [div_mul_eq_mul_div]
  · norm_num [item_edges, edges_from_source]
  · intro source s sinks hT
    have hmap : ((edges_from_source source s sinks).map (fun e => e.2.2)) =
        sinks.map (fun p => s / ((sinks.map (fun p => p.2)).sum) * p.2) := by
      unfold edges_from_source
      rw [List.map_map]
      rfl
    rw [hmap, List.sum_map_mul_left]
    exact div_mul_cancel₀ s hT

/-- C5 witness: conservation instantiated on the 30-unit source feeding
the two 20-unit sinks. -/
theorem claim_C5_flow_edges_witness :
    (([("X", (20 : ℚ)), ("Y", 20)].map (fun p => p.2)).sum ≠ 0) ∧
    ((edges_from_source "A" 30 [("X", 20), ("Y", 20)]).map (fun e => e.2.2)).sum = 30 :=
  ⟨by norm_num, claim_C5_flow_edges.2.2 "A" 30 [("X", 20), ("Y", 20)] (by norm_num)⟩

/-- C7: rendering a non-optimal optimization result is total (no
exception can be modelled: both renderers are functions) and produces the
canned explanation for each status — the not-solved and undefined
statuses yield "No solution has been found.", infeasible suggests
removing a constraint or allowing a byproduct, and unbounded suggests
adding a constraint or replacing `?` with a concrete value; the message
form carries the same text as its embed title. -/
theorem claim_C7_status_rendering (t : String) (m : ResultMessage) (b : String) :
    opt_result_str LpStatus.notSolved t = "No solution has been found." ∧
    opt_result_str LpStatus.undefined t = "No solution has been found." ∧
    opt_result_str LpStatus.infeasible t =
      "Solution is infeasible, try removing a constraint or allowing a byproduct (e.g. rubber >= 0)" ∧
    opt_result_str LpStatus.unbounded t =
      "Solution is unbounded, try adding a constraint or replacing '?' with a concrete value (e.g. 1000)" ∧
    optimization_message LpStatus.notSolved m t b =
      { embedTitle := some "No solution has been found.",
        embedDescription := none, content := b } ∧
    optimization_message LpStatus.undefined m t b =
      { embedTitle := some "No solution has been found.",
        embedDescription := none, content := b } ∧
    optimization_message LpStatus.infeasible m t b =
      { embedTitle := some "Solution is infeasible, try removing a constraint or allowing a byproduct (e.g. rubber >= 0)",
        embedDescription := none, content := b } ∧
    optimization_message LpStatus.unbounded m t b =
      { embedTitle := some "Solution is unbounded, try adding a constraint or replacing '?' with a concrete value (e.g. 1000)",
        embedDescription := none, content := b } :=
  ⟨rfl, rfl, rfl, rfl, rfl, rfl, rfl, rfl⟩

/-- A 2001-character breadcrumbs string. -/
def longBreadcrumbs : String := String.mk (List.replicate 2001 'a')

theorem longBreadcrumbs_length : longBreadcrumbs.length = 2001 := by
  show (List.replicate 2001 'a').length = 2001
  exact List.length_replicate 2001 'a'

/-- C8 counterexample: a non-optimal optimization message whose content
is 2001 characters long is emitted as-is rather than replaced by the
placeholder — the 2000-character cap exists only in the recipe-compare
renderer, not for every result kind. -/
theorem claim_C8_counterexample :
    2000 < (optimization_message LpStatus.infeasible
        { embedTitle := none, embedDescription := none, content := "" } ""
        longBreadcrumbs).content.length ∧
    (optimization_message LpStatus.infeasible
        { embedTitle := none, embedDescription := none, content := "" } ""
        longBreadcrumbs).content ≠ "Output was too long" := by
  constructor
  · show 2000 < longBreadcrumbs.length
    rw [longBreadcrumbs_length]
    norm_num
  · show longBreadcrumbs ≠ "Output was too long"
    intro h
    have hl := congrArg String.length h
    rw [longBreadcrumbs_length] at hl
    have h19 : ("Output was too long").length = 19 := by decide
    rw [h19] at hl
    exact absurd hl (by norm_num)

/-- C8 (amended): the recipe-compare renderer replaces its message
content by the "Output was too long" placeholder exactly when the built
content exceeds 2000 characters (and emits it verbatim otherwise), but
the 2000-character cap applies only there: the optimization-result
message emits its content with no length check. -/
theorem claim_C8_amended :
    (∀ b pn ot it, 2000 < (recipe_compare_content b pn ot it).length →
      (recipe_compare_message b pn ot it).content = "Output was too long") ∧
    (∀ b pn ot it, ¬ 2000 < (recipe_compare_content b pn ot it).length →
      (recipe_compare_message b pn ot it).content = recipe_compare_content b pn ot it) ∧
    (∀ st m t b, st ≠ LpStatus.optimal →
      (optimization_message st m t b).content = b) := by
  refine ⟨?_, ?_, ?_⟩
  · intro b pn ot it h
    simp only [recipe_compare_message]
    rw [if_pos h]
  · intro b pn ot it h
    simp only [recipe_compare_message]
    rw [if_neg h]
  · intro st m t b hst
    simp only [optimization_message]
    rw [if_neg hst]

/-- An empty result message. -/
def mEmpty : ResultMessage :=
  { embedTitle := none, embedDescription := none, content := "" }

/-- C8 amended witness: the cap fires on a 2001-character breadcrumbs
string, does not fire on empty content, and the optimization message
passes its content through. -/
theorem claim_C8_amended_witness :
    2000 < (recipe_compare_content longBreadcrumbs "" "" "").length ∧
    (recipe_compare_message longBreadcrumbs "" "" "").content =
      "Output was too long" ∧
    ¬ 2000 < (recipe_compare_content "" "" "" "").length ∧
    (recipe_compare_message "" "" "" "").content = recipe_compare_content "" "" "" "" ∧
    LpStatus.infeasible ≠ LpStatus.optimal ∧
    (optimization_message LpStatus.infeasible mEmpty "" "bc").content = "bc" := by
  have hconteq : recipe_compare_content longBreadcrumbs "" "" "" =
      longBreadcrumbs ++ "\n" ++
        "All recipes that produce \n```\n```\nRaw Inputs for 1/m \n```\n```" := rfl
  have hlong : 2000 < (recipe_compare_content longBreadcrumbs "" "" "").length := by
    rw [hconteq, String.length_append, String.length_append, longBreadcrumbs_length]
    have h1 : ("\n" : String).length = 1 := by decide
    have h2 : ("All recipes that produce \n```\n```\nRaw Inputs for 1/m \n```\n```" : String).length = 61 := by
      decide
    rw [h1, h2]
    norm_num
  refine ⟨hlong, claim_C8_amended.1 longBreadcrumbs "" "" "" hlong, by decide,
    claim_C8_amended.2.1 "" "" "" "" (by decide), by decide,
    claim_C8_amended.2.2 LpStatus.infeasible mEmpty "" "bc" (by decide)⟩
